import Mathlib

/-
Shallow embedding of cc_ffxiv_craft_alloc.py.

Conventions of the embedding:
- Python ints are modelled as Int (quantities, budgets) or Nat (production
  counts, which start at 0 and are only decremented right after an
  increment).
- Python dicts keyed by enum members are modelled as functions into
  Option Int (a key absent from the dict maps to none).  All dict uses in
  the source are order-insensitive (membership tests, lookups, and
  iteration over keys that is immediately re-sorted), so the function view
  is faithful.
- The random number source is an oracle parameter, a function from the
  attempt index to a Nat; random.randint(0, n) is modelled as the oracle
  value reduced mod (n + 1), which ranges over exactly the same values.
- The while-loop of approximate_counts is modelled with explicit fuel.
  A result of none means the loop had not yet exited after that many
  iterations; some r means it finished with outcome r.
- Uncaught Python exceptions (ValueError from random.randint on an empty
  range, KeyError from a budget dict missing a kind) are explicit error
  outcomes.
-/

namespace CraftAlloc

/-- The elemental crystals, in declaration order of the Python enum. -/
inductive Crystal where
  | FIRE
  | ICE
  | WIND
  | EARTH
  | LIGHTNING
  | WATER
  deriving DecidableEq, Repr, Fintype

/-- Single-character code of a crystal, the value of the Python StrEnum member. -/
def Crystal.code : Crystal → Char
  | .FIRE => 'F'
  | .ICE => 'I'
  | .WIND => 'W'
  | .EARTH => 'E'
  | .LIGHTNING => 'L'
  | .WATER => 'A'

/-- The sorting_dict of Crystal.__lt__ (line 18 of the source). -/
def Crystal.sortKey : Crystal → Nat
  | .FIRE => 0
  | .ICE => 1
  | .WIND => 2
  | .EARTH => 3
  | .LIGHTNING => 4
  | .WATER => 5

/-- Crystal(c) on a one-character string: the member whose value is c, else a ValueError. -/
def crystalOfCode (c : Char) : Option Crystal :=
  if c = 'F' then some Crystal.FIRE
  else if c = 'I' then some Crystal.ICE
  else if c = 'W' then some Crystal.WIND
  else if c = 'E' then some Crystal.EARTH
  else if c = 'L' then some Crystal.LIGHTNING
  else if c = 'A' then some Crystal.WATER
  else none

/-- Iteration order of the Crystal enum (declaration order). -/
def crystalDeclList : List Crystal :=
  [Crystal.FIRE, Crystal.ICE, Crystal.WIND, Crystal.EARTH, Crystal.LIGHTNING, Crystal.WATER]

/-- Crystal members listed in ascending Crystal.sortKey order; Python sorted() on
crystal keys always lists keys in this relative order, since all ranks are distinct. -/
def sortedCrystalList : List Crystal :=
  [Crystal.FIRE, Crystal.ICE, Crystal.WIND, Crystal.EARTH, Crystal.LIGHTNING, Crystal.WATER]

/-- The generic ingredient types, in declaration order of the Python enum. -/
inductive Ingredient where
  | LUMBER
  | LEATHER
  | GEM
  | CLOTH
  | INGOT
  | STONE
  | ALCHEMIC
  | FOOD
  deriving DecidableEq, Repr, Fintype

/-- Single-character code of an ingredient, the value of the Python StrEnum member. -/
def Ingredient.code : Ingredient → Char
  | .LUMBER => 'W'
  | .LEATHER => 'L'
  | .GEM => 'G'
  | .CLOTH => 'C'
  | .INGOT => 'I'
  | .STONE => 'S'
  | .ALCHEMIC => 'A'
  | .FOOD => 'F'

/-- The sorting_dict of Ingredient.__lt__ (line 48 of the source):
W 0, L 1, G 2, C 4, I 5, S 3, A 6, F 7.  Note STONE ranks before CLOTH. -/
def Ingredient.sortKey : Ingredient → Nat
  | .LUMBER => 0
  | .LEATHER => 1
  | .GEM => 2
  | .CLOTH => 4
  | .INGOT => 5
  | .STONE => 3
  | .ALCHEMIC => 6
  | .FOOD => 7

/-- Ingredient(c) on a one-character string: the member whose value is c, else a ValueError. -/
def ingredientOfCode (c : Char) : Option Ingredient :=
  if c = 'W' then some Ingredient.LUMBER
  else if c = 'L' then some Ingredient.LEATHER
  else if c = 'G' then some Ingredient.GEM
  else if c = 'C' then some Ingredient.CLOTH
  else if c = 'I' then some Ingredient.INGOT
  else if c = 'S' then some Ingredient.STONE
  else if c = 'A' then some Ingredient.ALCHEMIC
  else if c = 'F' then some Ingredient.FOOD
  else none

/-- Iteration order of the Ingredient enum (declaration order):
LUMBER, LEATHER, GEM, CLOTH, INGOT, STONE, ALCHEMIC, FOOD. -/
def ingredientDeclList : List Ingredient :=
  [Ingredient.LUMBER, Ingredient.LEATHER, Ingredient.GEM, Ingredient.CLOTH,
   Ingredient.INGOT, Ingredient.STONE, Ingredient.ALCHEMIC, Ingredient.FOOD]

/-- Ingredient members in ascending Ingredient.sortKey order; Python sorted() on
ingredient keys always lists keys in this relative order, since all ranks are
distinct.  STONE comes before CLOTH here, unlike in declaration order. -/
def sortedIngredientList : List Ingredient :=
  [Ingredient.LUMBER, Ingredient.LEATHER, Ingredient.GEM, Ingredient.STONE,
   Ingredient.CLOTH, Ingredient.INGOT, Ingredient.ALCHEMIC, Ingredient.FOOD]

/-- A crafting recipe: a name plus the two requirement dicts.  The dicts are
modelled as functions into Option Int; none models a key that is absent. -/
structure CollectableRecipe where
  name : String
  ingredients : Ingredient → Option Int
  crystals : Crystal → Option Int

/-- Builds a dict from a list of key-value pairs by repeated assignment,
exactly like the loops in the primary constructor and the dict
comprehensions of from_string: a later pair with the same key overwrites
an earlier one. -/
def dictOf {α : Type} [DecidableEq α] (ps : List (α × Int)) : α → Option Int :=
  ps.foldl (fun m kv => fun x => if x = kv.1 then some kv.2 else m x) (fun _ => none)

/-- The primary constructor CollectableRecipe.__init__ (lines 58-72). -/
def mkRecipe (name : String) (ings : List (Ingredient × Int)) (crys : List (Crystal × Int)) :
    CollectableRecipe :=
  ⟨name, dictOf ings, dictOf crys⟩

/-- CollectableRecipe() with all arguments defaulted: empty name, empty dicts. -/
def defaultRecipe : CollectableRecipe := mkRecipe ("") [] []

/-- Whether a character is stripped by Python str.strip(): space, tab,
newline, carriage return, vertical tab, form feed (codepoints 32 9 10 13 11 12). -/
def isPySpace (c : Char) : Bool :=
  (c.toNat = 32) || (c.toNat = 9) || (c.toNat = 10) || (c.toNat = 13) ||
  (c.toNat = 11) || (c.toNat = 12)

/-- Remove leading and trailing whitespace, as Python int() does before parsing. -/
def stripChars (cs : List Char) : List Char :=
  ((cs.dropWhile isPySpace).reverse.dropWhile isPySpace).reverse

/-- Value of a decimal digit character, none for any other character. -/
def digitVal (c : Char) : Option Nat :=
  if 48 ≤ c.toNat ∧ c.toNat ≤ 57 then some (c.toNat - 48) else none

/-- Parse the remaining characters of a decimal literal after its first digit,
accumulating the value.  A single underscore is permitted between two digits,
matching the grammar accepted by Python int(). -/
def parseDigitsRest (acc : Nat) : List Char → Option Nat
  | [] => some acc
  | c :: cs =>
    if c = '_' then
      match cs with
      | c2 :: cs2 =>
        match digitVal c2 with
        | some d => parseDigitsRest (10 * acc + d) cs2
        | none => none
      | [] => none
    else
      match digitVal c with
      | some d => parseDigitsRest (10 * acc + d) cs
      | none => none

/-- Parse a nonempty run of decimal digits (with optional single underscores
between digits) into a Nat; none if the run is empty or malformed. -/
def parseDigits : List Char → Option Nat
  | [] => none
  | c :: cs =>
    match digitVal c with
    | some d => parseDigitsRest d cs
    | none => none

/-- Model of Python int(str): optional surrounding whitespace, an optional
sign, then a nonempty digit run; none models the ValueError raised on
any other input. -/
def pyInt (cs : List Char) : Option Int :=
  match stripChars cs with
  | [] => none
  | c :: rest =>
    if c = '-' then (parseDigits rest).map (fun n => -(n : Int))
    else if c = '+' then (parseDigits rest).map (fun n => (n : Int))
    else (parseDigits (c :: rest)).map (fun n => (n : Int))

/-- Python str.split(sep) for a single-character separator: splits on every
occurrence, keeping empty pieces, so the result always has one more piece
than there are separators. -/
def splitOnChar (sep : Char) : List Char → List (List Char)
  | [] => [[]]
  | c :: cs =>
    if c = sep then [] :: splitOnChar sep cs
    else
      match splitOnChar sep cs with
      | [] => [[c]]
      | t :: ts => (c :: t) :: ts

/-- Map a fallible function over a list, failing as a whole on the first
failure: the model of Python list(map(f, xs)) when f may raise. -/
def mapOption {α β : Type} (f : α → Option β) : List α → Option (List β)
  | [] => some []
  | a :: l =>
    match f a with
    | some b => (mapOption f l).map (fun bs => b :: bs)
    | none => none

/-- Parse one letter-number token such as W2: the leading character must be a
recognized kind code and the remaining characters a valid Python integer
literal.  none models the ValueError (bad code or bad number) and the
IndexError (empty token) caught by from_string. -/
def parseToken {κ : Type} (ofCode : Char → Option κ) : List Char → Option (κ × Int)
  | [] => none
  | c :: rest =>
    match ofCode c with
    | some k => (pyInt rest).map (fun q => (k, q))
    | none => none

/-- Tokenize one comma-separated field of a signature. -/
def parseField {κ : Type} (ofCode : Char → Option κ) (field : List Char) :
    Option (List (κ × Int)) :=
  mapOption (parseToken ofCode) (splitOnChar ',' field)

/-- The body of from_string once the signature has split into exactly three
fields (lines 96-112): tokenize both requirement fields; if both succeed,
replace every field of the recipe, otherwise the exception is caught and the
recipe is left unchanged. -/
def fromFields (self : CollectableRecipe)
    (nameField ingField cryField : List Char) : CollectableRecipe :=
  match parseField ingredientOfCode ingField, parseField crystalOfCode cryField with
  | some ingPairs, some cryPairs =>
    ⟨String.mk nameField, dictOf ingPairs, dictOf cryPairs⟩
  | _, _ => self

/-- CollectableRecipe.from_string (lines 87-118).  On success every field of
the recipe is replaced; when any step raises (wrong number of semicolon
fields, unrecognized code, bad integer, empty token) the exception is caught
and the recipe is returned unchanged. -/
def fromString (self : CollectableRecipe) (signature : String) : CollectableRecipe :=
  match splitOnChar ';' signature.data with
  | [nameField, ingField, cryField] => fromFields self nameField ingField cryField
  | _ => self

/-- The digit characters emitted by Python str on a nonnegative int.
Only ever applied to values below 10. -/
def digitChar : Nat → Char
  | 0 => '0'
  | 1 => '1'
  | 2 => '2'
  | 3 => '3'
  | 4 => '4'
  | 5 => '5'
  | 6 => '6'
  | 7 => '7'
  | 8 => '8'
  | _ => '9'

/-- Decimal digits of n, most significant first; the fuel argument bounds the
recursion depth and any fuel above n is enough. -/
def natCharsGo : Nat → Nat → List Char
  | 0, _ => []
  | f + 1, n => if n < 10 then [digitChar n] else natCharsGo f (n / 10) ++ [digitChar (n % 10)]

/-- Decimal representation of a Nat, as Python str produces it. -/
def natChars (n : Nat) : List Char := natCharsGo (n + 1) n

/-- Model of Python str on an int: a minus sign for negative values, then
the decimal digits without leading zeros. -/
def intChars (q : Int) : List Char :=
  if q < 0 then '-' :: natChars q.natAbs else natChars q.toNat

/-- Python sep.join for a one-character separator, on a list of char lists. -/
def joinWith (sep : Char) : List (List Char) → List Char
  | [] => []
  | [t] => t
  | t :: t2 :: ts => t ++ sep :: joinWith sep (t2 :: ts)

/-- The ingredient keys present in a recipe dict, in the order Python
sorted() yields them (ascending Ingredient.sortKey). -/
def presentIngredients (m : Ingredient → Option Int) : List Ingredient :=
  sortedIngredientList.filter (fun i => (m i).isSome)

/-- The crystal keys present in a recipe dict, in the order Python
sorted() yields them (ascending Crystal.sortKey). -/
def presentCrystals (m : Crystal → Option Int) : List Crystal :=
  sortedCrystalList.filter (fun c => (m c).isSome)

/-- One letter-number token of to_signature for an ingredient key. -/
def ingToken (m : Ingredient → Option Int) (i : Ingredient) : List Char :=
  i.code :: intChars ((m i).getD 0)

/-- One letter-number token of to_signature for a crystal key. -/
def cryToken (m : Crystal → Option Int) (c : Crystal) : List Char :=
  c.code :: intChars ((m c).getD 0)

/-- CollectableRecipe.to_signature (lines 120-143): name, the sorted
comma-joined ingredient tokens, and the sorted comma-joined crystal tokens,
separated by semicolons. -/
def toSignature (r : CollectableRecipe) : String :=
  String.mk
    (r.name.data ++ ';' ::
      (joinWith ',' ((presentIngredients r.ingredients).map (ingToken r.ingredients)) ++ ';' ::
        joinWith ',' ((presentCrystals r.crystals).map (cryToken r.crystals))))

/-- CollectableRecipe.overlap (lines 145-152): for each enum family, the
members that are keys of both recipes, collected while iterating the enum
in declaration order. -/
def overlap (r1 r2 : CollectableRecipe) : List Ingredient × List Crystal :=
  (ingredientDeclList.filter (fun i => (r1.ingredients i).isSome && (r2.ingredients i).isSome),
   crystalDeclList.filter (fun c => (r1.crystals c).isSome && (r2.crystals c).isSome))

/-- Total consumption of ingredient i: the sum over positions of
count * quantity, counting only recipes whose dict has the key, exactly as
the inner loop of RecipeCollection.summarize (lines 183-190). -/
def ingredientTotal : List CollectableRecipe → List Nat → Ingredient → Int
  | r :: rs, k :: ks, i =>
    (match r.ingredients i with
     | some q => (k : Int) * q
     | none => 0) + ingredientTotal rs ks i
  | _, _, _ => 0

/-- Total consumption of crystal c, as the second loop of summarize
(lines 192-199). -/
def crystalTotal : List CollectableRecipe → List Nat → Crystal → Int
  | r :: rs, k :: ks, c =>
    (match r.crystals c with
     | some q => (k : Int) * q
     | none => 0) + crystalTotal rs ks c
  | _, _, _ => 0

/-- RecipeCollection.summarize (lines 169-201): with a count vector of the
right length, the per-kind totals over both families; on a size mismatch the
source prints an error and returns an empty dict, modelled as none (any
later key access on that empty dict would raise). -/
def summarize (rs : List CollectableRecipe) (counts : List Nat) :
    Option ((Ingredient → Int) × (Crystal → Int)) :=
  if counts.length = rs.length then
    some (fun i => ingredientTotal rs counts i, fun c => crystalTotal rs counts c)
  else none

/-- Uncaught Python exceptions that the allocator can raise. -/
inductive PyErr where
  | valueError
  | keyError
  deriving DecidableEq, Repr

/-- Outcome of one valid_bill budget scan over one enum family. -/
inductive BillCheck where
  | keyError
  | result (b : Bool)
  deriving DecidableEq, Repr

/-- One loop of valid_bill: walk the kinds in enum declaration order; a kind
missing from the budget dict raises KeyError; a kind whose total exceeds its
budget returns False at once; otherwise continue. -/
def checkKinds {κ : Type} (total : κ → Int) (budget : κ → Option Int) :
    List κ → BillCheck
  | [] => BillCheck.result true
  | k :: ks =>
    match budget k with
    | none => BillCheck.keyError
    | some b => if total k > b then BillCheck.result false else checkKinds total budget ks

/-- The helper valid_bill (lines 215-233): scan all ingredient kinds, then,
only if none of them is over budget, all crystal kinds. -/
def valid_bill (s : (Ingredient → Int) × (Crystal → Int))
    (bi : Ingredient → Option Int) (bc : Crystal → Option Int) : BillCheck :=
  match checkKinds s.1 bi ingredientDeclList with
  | BillCheck.keyError => BillCheck.keyError
  | BillCheck.result false => BillCheck.result false
  | BillCheck.result true => checkKinds s.2 bc crystalDeclList

/-- Outcome of a finished run of approximate_counts. -/
inductive RunResult where
  | ok (counts : List Nat)
  | err (e : PyErr)
  deriving DecidableEq, Repr

/-- The while-loop of approximate_counts (lines 241-254), one fuel unit per
loop-condition check.  The rounds variable is initialized to 0 at line 238
and, as in the source, never incremented, so the guard rounds < maxRounds
only distinguishes maxRounds ≤ 0 from the rest.  Each iteration picks an
index from the random oracle, tentatively increments that count, recomputes
the summary, and either keeps the increment (resetting the failure streak)
or reverts it (growing the streak). -/
def acLoop (rc : List CollectableRecipe) (bi : Ingredient → Option Int)
    (bc : Crystal → Option Int) (maxRounds failLimit : Int) (rand : Nat → Nat) :
    Nat → List Nat → Nat → Int → Nat → Option RunResult
  | 0, _, _, _, _ => none
  | fuel + 1, counts, streak, rounds, idx =>
    if rounds < maxRounds ∧ (streak : Int) < failLimit then
      match rc with
      | [] => some (RunResult.err PyErr.valueError)
      | _ :: _ =>
        let i := rand idx % rc.length
        let tentative := counts.set i (counts.getD i 0 + 1)
        match summarize rc tentative with
        | none => some (RunResult.err PyErr.keyError)
        | some s =>
          match valid_bill s bi bc with
          | BillCheck.keyError => some (RunResult.err PyErr.keyError)
          | BillCheck.result false =>
            acLoop rc bi bc maxRounds failLimit rand fuel
              (tentative.set i (tentative.getD i 0 - 1)) (streak + 1) rounds (idx + 1)
          | BillCheck.result true =>
            acLoop rc bi bc maxRounds failLimit rand fuel tentative 0 rounds (idx + 1)
    else some (RunResult.ok counts)

/-- RecipeCollection.approximate_counts (lines 203-259): start from the zero
vector with a zero failure streak and run the loop on the given fuel. -/
def approximate_counts (rc : List CollectableRecipe) (bi : Ingredient → Option Int)
    (bc : Crystal → Option Int) (maxRounds failLimit : Int) (rand : Nat → Nat)
    (fuel : Nat) : Option RunResult :=
  acLoop rc bi bc maxRounds failLimit rand fuel (List.replicate rc.length 0) 0 0 0

/-- Outcome of the inner trial sequence of meta_approximate. -/
inductive TrialsResult where
  | ok (trials : List (List Nat))
  | err (e : PyErr)
  deriving DecidableEq, Repr

/-- The trial sequence of meta_approximate: run approximate_counts once per
trial index, each trial reading its own random oracle, collecting the
returned vectors in trial order; an exception or an unfinished trial aborts
the whole sequence. -/
def runTrials (rc : List CollectableRecipe) (bi : Ingredient → Option Int)
    (bc : Crystal → Option Int) (maxRounds failLimit : Int)
    (rands : Nat → Nat → Nat) (fuel : Nat) : Nat → Option TrialsResult
  | 0 => some (TrialsResult.ok [])
  | n + 1 =>
    match runTrials rc bi bc maxRounds failLimit rands fuel n with
    | some (TrialsResult.ok vs) =>
      match approximate_counts rc bi bc maxRounds failLimit (rands n) fuel with
      | some (RunResult.ok v) => some (TrialsResult.ok (vs ++ [v]))
      | some (RunResult.err e) => some (TrialsResult.err e)
      | none => none
    | other => other

/-- The accumulator update of meta_approximate (lines 282-290): a strictly
larger total replaces the tracked set with a singleton; an equal total is
appended; a smaller total is ignored. -/
def metaStep (acc : Nat × List (List Nat)) (v : List Nat) : Nat × List (List Nat) :=
  if v.sum > acc.1 then (v.sum, [v])
  else if v.sum = acc.1 then (acc.1, acc.2 ++ [v])
  else acc

/-- Folding the accumulator, starting from max_items 0 and no vectors
(lines 274-275), over the trial vectors in trial order. -/
def metaFold (vs : List (List Nat)) : Nat × List (List Nat) :=
  vs.foldl metaStep (0, [])

/-- Outcome of a finished run of meta_approximate. -/
inductive MetaResult where
  | ok (best : Nat) (vecs : List (List Nat))
  | err (e : PyErr)
  deriving DecidableEq, Repr

/-- RecipeCollection.meta_approximate (lines 261-294): run the trials and
fold the best-total accumulator over their vectors. -/
def meta_approximate (rc : List CollectableRecipe) (bi : Ingredient → Option Int)
    (bc : Crystal → Option Int) (maxRounds failLimit : Int)
    (rands : Nat → Nat → Nat) (fuel : Nat) (trialCount : Nat) : Option MetaResult :=
  match runTrials rc bi bc maxRounds failLimit rands fuel trialCount with
  | some (TrialsResult.ok vs) => some (MetaResult.ok (metaFold vs).1 (metaFold vs).2)
  | some (TrialsResult.err e) => some (MetaResult.err e)
  | none => none

/-- Budget dict assigning 0 to every ingredient kind. -/
def zeroIngredientBudget : Ingredient → Option Int := fun _ => some 0

/-- Budget dict assigning 0 to every crystal kind. -/
def zeroCrystalBudget : Crystal → Option Int := fun _ => some 0

/-- A recipe with no requirements at all, as produced by the primary
constructor on empty lists. -/
def freeRecipe : CollectableRecipe := mkRecipe ("free") [] []

/-- A recipe requiring one CLOTH and one STONE, the pair of ingredient kinds
on which enum declaration order and the sorting_dict rank order disagree. -/
def stoneClothRecipe : CollectableRecipe :=
  mkRecipe ("t") [(Ingredient.CLOTH, 1), (Ingredient.STONE, 1)] []

/-- Position of an ingredient in the declaration order of the Python enum. -/
def Ingredient.declRank : Ingredient → Nat
  | .LUMBER => 0
  | .LEATHER => 1
  | .GEM => 2
  | .CLOTH => 3
  | .INGOT => 4
  | .STONE => 5
  | .ALCHEMIC => 6
  | .FOOD => 7

/-- The concrete example signature of the spec. -/
def rodSignature : String := "rod;W2,G1,I1;W8,I8"

/-- The recipe obtained by decoding the example signature into a fresh recipe. -/
def rodDecoded : CollectableRecipe := fromString defaultRecipe rodSignature

/-- The ingredient dict the example signature is said to decode to:
LUMBER 2, GEM 1, INGOT 1. -/
def rodExpectedIngredients : Ingredient → Option Int
  | .LUMBER => some 2
  | .GEM => some 1
  | .INGOT => some 1
  | _ => none

/-- The crystal dict the example signature is said to decode to:
WIND 8, ICE 8. -/
def rodExpectedCrystals : Crystal → Option Int
  | .WIND => some 8
  | .ICE => some 8
  | _ => none

/-- A token of an ingredient field that from_string cannot parse: empty, or
its leading character is not an ingredient code, or its numeric suffix is
not a valid integer. -/
def badIngToken : List Char → Bool
  | [] => true
  | c :: rest => (ingredientOfCode c).isNone || (pyInt rest).isNone

/-- A token of a crystal field that from_string cannot parse. -/
def badCryToken : List Char → Bool
  | [] => true
  | c :: rest => (crystalOfCode c).isNone || (pyInt rest).isNone

/-- A malformed signature in the sense of the spec: it does not split into
exactly three semicolon-separated fields, or one of its comma-separated
tokens has an unrecognized leading code or an invalid numeric suffix. -/
def malformedSignature (s : String) : Bool :=
  match splitOnChar ';' s.data with
  | [_, ingField, cryField] =>
    ((splitOnChar ',' ingField).any badIngToken) ||
      ((splitOnChar ',' cryField).any badCryToken)
  | _ => true

/-- For a budget pair with a missing key: a one-recipe collection whose single
recipe demands, for every kind, exactly that kind's budget entry (0 where the
entry is missing).  Producing one unit of it keeps every present kind exactly
on budget, so the valid_bill scan walks past every present kind and reaches
the first missing one. -/
def keyProbeRecipe (bi : Ingredient → Option Int) (bc : Crystal → Option Int) :
    CollectableRecipe :=
  mkRecipe ("k")
    (ingredientDeclList.map (fun i => (i, (bi i).getD 0)))
    (crystalDeclList.map (fun c => (c, (bc c).getD 0)))

/-- An ingredient budget dict with every kind present except FOOD. -/
def foodlessBudget : Ingredient → Option Int :=
  fun i => if i = Ingredient.FOOD then none else some 0

/-! Basic facts about the enum lists. -/

theorem mem_ingredientDeclList (i : Ingredient) : i ∈ ingredientDeclList := by
  cases i <;> decide

theorem mem_crystalDeclList (c : Crystal) : c ∈ crystalDeclList := by
  cases c <;> decide

theorem mem_sortedIngredientList (i : Ingredient) : i ∈ sortedIngredientList := by
  cases i <;> decide

theorem mem_sortedCrystalList (c : Crystal) : c ∈ sortedCrystalList := by
  cases c <;> decide

/-! Facts about the valid_bill budget scan. -/

theorem checkKinds_total_true_iff {κ : Type} (total : κ → Int) (b : κ → Int)
    (l : List κ) :
    checkKinds total (fun k => some (b k)) l = BillCheck.result true ↔
      ∀ k ∈ l, total k ≤ b k := by
  induction l with
  | nil => simp [checkKinds]
  | cons k ks ih =>
    simp only [checkKinds, List.mem_cons]
    by_cases h : total k > b k
    · simp only [if_pos h]
      constructor
      · intro hc; exact absurd hc (by simp)
      · intro hall; exact absurd (hall k (Or.inl rfl)) (by omega)
    · simp only [if_neg h]
      rw [ih]
      constructor
      · intro hall k2 hk2
        rcases hk2 with rfl | hk2
        · omega
        · exact hall k2 hk2
      · intro hall k2 hk2; exact hall k2 (Or.inr hk2)

theorem checkKinds_total_ne_keyError {κ : Type} (total : κ → Int) (b : κ → Int)
    (l : List κ) :
    checkKinds total (fun k => some (b k)) l ≠ BillCheck.keyError := by
  induction l with
  | nil => simp [checkKinds]
  | cons k ks ih =>
    simp only [checkKinds]
    by_cases h : total k > b k
    · simp [if_pos h]
    · simpa [if_neg h] using ih

theorem checkKinds_false_of_violation {κ : Type} (total : κ → Int) (b : κ → Int)
    (l : List κ) (hviol : ∃ k ∈ l, b k < total k) :
    checkKinds total (fun k => some (b k)) l = BillCheck.result false := by
  induction l with
  | nil => simp at hviol
  | cons k ks ih =>
    simp only [checkKinds]
    by_cases h : total k > b k
    · simp [if_pos h]
    · rw [if_neg h]
      apply ih
      rcases hviol with ⟨k2, hk2, hlt⟩
      rcases List.mem_cons.mp hk2 with rfl | hk2
      · omega
      · exact ⟨k2, hk2, hlt⟩

theorem checkKinds_true_of_present_le {κ : Type} (total : κ → Int)
    (budget : κ → Option Int) (l : List κ)
    (h : ∀ k ∈ l, ∃ b, budget k = some b ∧ total k ≤ b) :
    checkKinds total budget l = BillCheck.result true := by
  induction l with
  | nil => simp [checkKinds]
  | cons k ks ih =>
    obtain ⟨b, hb, hle⟩ := h k (List.mem_cons_self k ks)
    simp only [checkKinds, hb]
    rw [if_neg (by omega)]
    exact ih (fun k2 hk2 => h k2 (List.mem_cons_of_mem k hk2))

theorem checkKinds_keyError_of_missing {κ : Type} (total : κ → Int)
    (budget : κ → Option Int) (l : List κ)
    (hle : ∀ k ∈ l, ∀ b, budget k = some b → total k ≤ b)
    (hmiss : ∃ k ∈ l, budget k = none) :
    checkKinds total budget l = BillCheck.keyError := by
  induction l with
  | nil => simp at hmiss
  | cons k ks ih =>
    cases hb : budget k with
    | none => simp only [checkKinds, hb]
    | some b =>
      have hk := hle k (List.mem_cons_self k ks) b hb
      simp only [checkKinds, hb]
      rw [if_neg (by omega)]
      apply ih
      · exact fun k2 hk2 b2 hb2 => hle k2 (List.mem_cons_of_mem k hk2) b2 hb2
      · rcases hmiss with ⟨k2, hk2, hnone⟩
        rcases List.mem_cons.mp hk2 with rfl | hk2
        · rw [hb] at hnone; cases hnone
        · exact ⟨k2, hk2, hnone⟩

theorem valid_bill_total_true_iff (s : (Ingredient → Int) × (Crystal → Int))
    (bi : Ingredient → Int) (bc : Crystal → Int) :
    valid_bill s (fun i => some (bi i)) (fun c => some (bc c)) = BillCheck.result true ↔
      (∀ i, s.1 i ≤ bi i) ∧ (∀ c, s.2 c ≤ bc c) := by
  unfold valid_bill
  rcases h : checkKinds s.1 (fun i => some (bi i)) ingredientDeclList with _ | b
  · exact absurd h (checkKinds_total_ne_keyError _ _ _)
  · cases b with
    | false =>
      constructor
      · intro hc; exact absurd hc (by simp)
      · intro hall
        have : checkKinds s.1 (fun i => some (bi i)) ingredientDeclList = BillCheck.result true :=
          (checkKinds_total_true_iff _ _ _).mpr (fun k _ => hall.1 k)
        rw [h] at this; cases this
    | true =>
      rw [checkKinds_total_true_iff]
      have hing : ∀ i, s.1 i ≤ bi i := by
        intro i
        exact (checkKinds_total_true_iff s.1 bi ingredientDeclList).mp h i
          (mem_ingredientDeclList i)
      constructor
      · intro hall
        exact ⟨hing, fun c => hall c (mem_crystalDeclList c)⟩
      · intro hall c _
        exact hall.2 c

theorem valid_bill_total_ne_keyError (s : (Ingredient → Int) × (Crystal → Int))
    (bi : Ingredient → Int) (bc : Crystal → Int) :
    valid_bill s (fun i => some (bi i)) (fun c => some (bc c)) ≠ BillCheck.keyError := by
  unfold valid_bill
  rcases h : checkKinds s.1 (fun i => some (bi i)) ingredientDeclList with _ | b
  · exact absurd h (checkKinds_total_ne_keyError _ _ _)
  · cases b with
    | false => simp
    | true => exact checkKinds_total_ne_keyError _ _ _

theorem valid_bill_total_false_of_violation (s : (Ingredient → Int) × (Crystal → Int))
    (bi : Ingredient → Int) (bc : Crystal → Int)
    (hviol : (∃ i, bi i < s.1 i) ∨ (∃ c, bc c < s.2 c)) :
    valid_bill s (fun i => some (bi i)) (fun c => some (bc c)) = BillCheck.result false := by
  unfold valid_bill
  by_cases hing : ∃ i, bi i < s.1 i
  · rw [checkKinds_false_of_violation s.1 bi ingredientDeclList
      (by rcases hing with ⟨i, hi⟩; exact ⟨i, mem_ingredientDeclList i, hi⟩)]
  · push_neg at hing
    rw [(checkKinds_total_true_iff s.1 bi ingredientDeclList).mpr (fun k _ => hing k)]
    rcases hviol with h | ⟨c, hc⟩
    · exact absurd h (by push_neg; exact hing)
    · exact checkKinds_false_of_violation s.2 bc crystalDeclList
        ⟨c, mem_crystalDeclList c, hc⟩

/-! Facts about the requirement-free recipe: its totals vanish on any count
vector, so with nonnegative budgets every increment is kept, the failure
streak never grows, and the loop never exits. -/

theorem ingredientTotal_free (counts : List Nat) (i : Ingredient) :
    ingredientTotal [freeRecipe] counts i = 0 := by
  cases counts with
  | nil => rfl
  | cons k ks => simp [ingredientTotal, freeRecipe, mkRecipe, dictOf]

theorem crystalTotal_free (counts : List Nat) (c : Crystal) :
    crystalTotal [freeRecipe] counts c = 0 := by
  cases counts with
  | nil => rfl
  | cons k ks => simp [crystalTotal, freeRecipe, mkRecipe, dictOf]

theorem acLoop_free_none (biF : Ingredient → Int) (bcF : Crystal → Int)
    (hbi : ∀ i, 0 ≤ biF i) (hbc : ∀ c, 0 ≤ bcF c)
    (mR fL : Int) (hmR : 0 < mR) (hfL : 0 < fL) (rand : Nat → Nat) :
    ∀ (fuel : Nat) (counts : List Nat) (idx : Nat), counts.length = 1 →
      acLoop [freeRecipe] (fun i => some (biF i)) (fun c => some (bcF c))
        mR fL rand fuel counts 0 0 idx = none := by
  intro fuel
  induction fuel with
  | zero => intro counts idx h; rfl
  | succ f ih =>
    intro counts idx h
    have hsum : summarize [freeRecipe] (counts.set 0 (counts.getD 0 0 + 1)) =
        some (fun i => ingredientTotal [freeRecipe] (counts.set 0 (counts.getD 0 0 + 1)) i,
          fun c => crystalTotal [freeRecipe] (counts.set 0 (counts.getD 0 0 + 1)) c) := by
      simp [summarize, List.length_set, h]
    have hvb : valid_bill
        (fun i => ingredientTotal [freeRecipe] (counts.set 0 (counts.getD 0 0 + 1)) i,
          fun c => crystalTotal [freeRecipe] (counts.set 0 (counts.getD 0 0 + 1)) c)
        (fun i => some (biF i)) (fun c => some (bcF c)) = BillCheck.result true := by
      rw [valid_bill_total_true_iff]
      constructor
      · intro i
        show ingredientTotal [freeRecipe] (counts.set 0 (counts.getD 0 0 + 1)) i ≤ biF i
        rw [ingredientTotal_free]; exact hbi i
      · intro c
        show crystalTotal [freeRecipe] (counts.set 0 (counts.getD 0 0 + 1)) c ≤ bcF c
        rw [crystalTotal_free]; exact hbc c
    have hcond : (0 : Int) < mR ∧ ((0 : Nat) : Int) < fL := ⟨hmR, by exact_mod_cast hfL⟩
    simp only [acLoop, if_pos hcond, List.length_cons, List.length_nil, Nat.zero_add,
      Nat.mod_one, hsum, hvb]
    exact ih _ (idx + 1) (by rw [List.length_set]; exact h)

/-- C2: the claim states that the increment-attempt loop of approximate_counts
runs at most max_rounds iterations.  In the source the rounds variable is
initialized to 0 and never incremented, so the guard rounds < max_rounds never
turns false once max_rounds is at least 1; this run, on a one-recipe collection
whose recipe needs nothing and with max_rounds = 1, is still inside the loop
after any number of iterations, contradicting the code docstring (line 212)
that promises a stop after max_rounds iterations. -/
theorem claim2_max_rounds_never_enforced (fuel : Nat) (rand : Nat → Nat) :
    approximate_counts [freeRecipe] zeroIngredientBudget zeroCrystalBudget
      1 50 rand fuel = none := by
  have h := acLoop_free_none (fun _ => 0) (fun _ => 0)
    (fun _ => le_refl 0) (fun _ => le_refl 0) 1 50 (by norm_num) (by norm_num)
    rand fuel (List.replicate 1 0) 0 (by simp)
  exact h

/-- C5: calling approximate_counts on an empty collection with max_rounds = 1
and the default failure limit does not return the empty vector: the loop body
runs, and random.randint(0, -1) raises an uncaught ValueError. -/
theorem claim5_empty_collection_raises (bi : Ingredient → Option Int)
    (bc : Crystal → Option Int) (rand : Nat → Nat) :
    approximate_counts [] bi bc 1 50 rand 1 = some (RunResult.err PyErr.valueError) := by
  simp only [approximate_counts, acLoop, List.length_nil]
  rw [if_pos (by norm_num)]

/-- C6 counterexample: the claim quantifies over every non-empty collection
and promises a stop after failure_limit consecutive failures.  For the
collection holding one requirement-free recipe and all-zero budgets, every
increment is kept, so after failure_limit + 1 = 51 loop iterations the run
has not terminated at all, let alone returned the zero vector. -/
theorem claim6_counterexample :
    approximate_counts [freeRecipe] zeroIngredientBudget zeroCrystalBudget
      1000 50 (fun _ => 0) 51 = none := by
  have h := acLoop_free_none (fun _ => 0) (fun _ => 0)
    (fun _ => le_refl 0) (fun _ => le_refl 0) 1000 50 (by norm_num) (by norm_num)
    (fun _ => 0) 51 (List.replicate 1 0) 0 (by simp)
  exact h

/-! List facts used by the allocator invariants. -/

/-- Incrementing an in-range entry and then decrementing it restores the
original vector: the source increments counts at the chosen index and, on an
over-budget summary, decrements the same entry. -/
theorem set_incr_then_decr (l : List Nat) :
    ∀ i, i < l.length →
      (l.set i (l.getD i 0 + 1)).set i ((l.set i (l.getD i 0 + 1)).getD i 0 - 1) = l := by
  induction l with
  | nil => intro i hi; simp at hi
  | cons a l ih =>
    intro i hi
    cases i with
    | zero => simp
    | succ j =>
      simp only [List.set_cons_succ, List.getD_cons_succ]
      rw [ih j (by simpa using hi)]

theorem ingredientTotal_replicate_zero (rs : List CollectableRecipe) (i : Ingredient) :
    ingredientTotal rs (List.replicate rs.length 0) i = 0 := by
  induction rs with
  | nil => rfl
  | cons r rs ih =>
    rw [List.length_cons, List.replicate_succ]
    simp only [ingredientTotal, ih]
    cases r.ingredients i <;> simp

theorem crystalTotal_replicate_zero (rs : List CollectableRecipe) (c : Crystal) :
    crystalTotal rs (List.replicate rs.length 0) c = 0 := by
  induction rs with
  | nil => rfl
  | cons r rs ih =>
    rw [List.length_cons, List.replicate_succ]
    simp only [crystalTotal, ih]
    cases r.crystals c <;> simp

/-- Loop invariant behind C1: starting from a feasible count vector of the
right length, if the loop finishes normally its result is feasible, because
kept increments were just validated against the recomputed summary and
failed increments are reverted before the next iteration. -/
theorem acLoop_preserves_feasible (rc : List CollectableRecipe)
    (biF : Ingredient → Int) (bcF : Crystal → Int) (mR fL : Int) (rand : Nat → Nat) :
    ∀ (fuel : Nat) (counts : List Nat) (streak : Nat) (rounds : Int) (idx : Nat)
      (res : List Nat),
      counts.length = rc.length →
      (∀ i, ingredientTotal rc counts i ≤ biF i) →
      (∀ c, crystalTotal rc counts c ≤ bcF c) →
      acLoop rc (fun i => some (biF i)) (fun c => some (bcF c)) mR fL rand fuel
        counts streak rounds idx = some (RunResult.ok res) →
      (∀ i, ingredientTotal rc res i ≤ biF i) ∧ (∀ c, crystalTotal rc res c ≤ bcF c) := by
  intro fuel
  induction fuel with
  | zero =>
    intro counts streak rounds idx res hlen hing hcry hrun
    exact absurd hrun (by simp [acLoop])
  | succ f ih =>
    intro counts streak rounds idx res hlen hing hcry hrun
    by_cases hcond : rounds < mR ∧ ((streak : Nat) : Int) < fL
    · cases hrc : rc with
      | nil =>
        rw [hrc] at hrun
        simp only [acLoop, if_pos hcond] at hrun
        cases hrun
      | cons r rs =>
        subst hrc
        simp only [acLoop, if_pos hcond] at hrun
        have hlen2 : (counts.set (rand idx % (r :: rs).length)
            (counts.getD (rand idx % (r :: rs).length) 0 + 1)).length = (r :: rs).length := by
          rw [List.length_set]; exact hlen
        have hsum : summarize (r :: rs) (counts.set (rand idx % (r :: rs).length)
            (counts.getD (rand idx % (r :: rs).length) 0 + 1)) =
            some (fun i => ingredientTotal (r :: rs) (counts.set (rand idx % (r :: rs).length)
                (counts.getD (rand idx % (r :: rs).length) 0 + 1)) i,
              fun c => crystalTotal (r :: rs) (counts.set (rand idx % (r :: rs).length)
                (counts.getD (rand idx % (r :: rs).length) 0 + 1)) c) := by
          simp [summarize, hlen]
        simp only [hsum] at hrun
        rcases hvb : valid_bill
            (fun i => ingredientTotal (r :: rs) (counts.set (rand idx % (r :: rs).length)
                (counts.getD (rand idx % (r :: rs).length) 0 + 1)) i,
              fun c => crystalTotal (r :: rs) (counts.set (rand idx % (r :: rs).length)
                (counts.getD (rand idx % (r :: rs).length) 0 + 1)) c)
            (fun i => some (biF i)) (fun c => some (bcF c)) with _ | b
        · exact absurd hvb (valid_bill_total_ne_keyError _ _ _)
        · cases b with
          | false =>
            simp only [hvb] at hrun
            have hrevert : (counts.set (rand idx % (r :: rs).length)
                (counts.getD (rand idx % (r :: rs).length) 0 + 1)).set
                  (rand idx % (r :: rs).length)
                  ((counts.set (rand idx % (r :: rs).length)
                    (counts.getD (rand idx % (r :: rs).length) 0 + 1)).getD
                      (rand idx % (r :: rs).length) 0 - 1) = counts := by
              apply set_incr_then_decr
              rw [hlen]
              exact Nat.mod_lt _ (by simp)
            rw [hrevert] at hrun
            exact ih counts (streak + 1) rounds (idx + 1) res hlen hing hcry hrun
          | true =>
            simp only [hvb] at hrun
            have hfeas := (valid_bill_total_true_iff _ biF bcF).mp hvb
            refine ih _ 0 rounds (idx + 1) res hlen2 ?_ ?_ hrun
            · intro j
              have := hfeas.1 j
              simpa using this
            · intro j
              have := hfeas.2 j
              simpa using this
    · simp only [acLoop, if_neg hcond] at hrun
      obtain rfl : counts = res := by
        cases hrun; rfl
      exact ⟨hing, hcry⟩

/-- C1: for every collection, every total nonnegative budget pair, and every
max_rounds and failure_limit, any count vector that approximate_counts
returns is feasible: recomputing the resource totals of the returned vector
stays within budget for every ingredient kind and every crystal kind. -/
theorem claim1_feasibility (rc : List CollectableRecipe)
    (biF : Ingredient → Int) (bcF : Crystal → Int) (mR fL : Int)
    (rand : Nat → Nat) (fuel : Nat) (res : List Nat)
    (hbi : ∀ i, 0 ≤ biF i) (hbc : ∀ c, 0 ≤ bcF c)
    (hrun : approximate_counts rc (fun i => some (biF i)) (fun c => some (bcF c))
      mR fL rand fuel = some (RunResult.ok res)) :
    (∀ i, ingredientTotal rc res i ≤ biF i) ∧ (∀ c, crystalTotal rc res c ≤ bcF c) := by
  refine acLoop_preserves_feasible rc biF bcF mR fL rand fuel
    (List.replicate rc.length 0) 0 0 0 res (by simp) ?_ ?_ hrun
  · intro i; rw [ingredientTotal_replicate_zero]; exact hbi i
  · intro c; rw [crystalTotal_replicate_zero]; exact hbc c

/-- Witness for C1 at a concrete input: one recipe needing one LUMBER, all
budgets zero, max_rounds = failure_limit = 1; the run returns the zero
vector and the theorem yields its feasibility. -/
theorem claim1_feasibility_witness :
    (∀ i, ingredientTotal [mkRecipe ("a") [(Ingredient.LUMBER, 1)] []] [0] i ≤ 0) ∧
    (∀ c, crystalTotal [mkRecipe ("a") [(Ingredient.LUMBER, 1)] []] [0] c ≤ 0) :=
  claim1_feasibility [mkRecipe ("a") [(Ingredient.LUMBER, 1)] []]
    (fun _ => 0) (fun _ => 0) 1 1 (fun _ => 0) 2 [0]
    (fun _ => le_refl 0) (fun _ => le_refl 0) (by decide)

/-! Facts about the meta allocator accumulator. -/

theorem metaStep_spec (acc : Nat × List (List Nat)) (v : List Nat)
    (h : ∀ w ∈ acc.2, w.sum = acc.1) :
    (metaStep acc v).1 = Nat.max acc.1 v.sum ∧
      ∀ w ∈ (metaStep acc v).2, w.sum = (metaStep acc v).1 := by
  unfold metaStep
  by_cases h1 : v.sum > acc.1
  · simp only [if_pos h1]
    refine ⟨(Nat.max_eq_right (le_of_lt h1)).symm, ?_⟩
    intro w hw
    rw [List.mem_singleton] at hw
    subst hw; rfl
  · by_cases h2 : v.sum = acc.1
    · simp only [if_neg h1, if_pos h2]
      refine ⟨(Nat.max_eq_left (by omega)).symm, ?_⟩
      intro w hw
      rcases List.mem_append.mp hw with hw | hw
      · exact h w hw
      · rw [List.mem_singleton] at hw; subst hw; exact h2
    · simp only [if_neg h1, if_neg h2]
      exact ⟨(Nat.max_eq_left (by omega)).symm, h⟩

theorem metaFold_go (vs : List (List Nat)) :
    ∀ acc : Nat × List (List Nat), (∀ w ∈ acc.2, w.sum = acc.1) →
      (vs.foldl metaStep acc).1 = vs.foldl (fun m v => Nat.max m v.sum) acc.1 ∧
      ∀ w ∈ (vs.foldl metaStep acc).2, w.sum = (vs.foldl metaStep acc).1 := by
  induction vs with
  | nil => intro acc h; exact ⟨rfl, h⟩
  | cons v vs ih =>
    intro acc h
    simp only [List.foldl_cons]
    obtain ⟨h1, h2⟩ := metaStep_spec acc v h
    obtain ⟨h3, h4⟩ := ih (metaStep acc v) h2
    exact ⟨by rw [h3, h1], h4⟩

theorem runTrials_length (rc : List CollectableRecipe) (bi : Ingredient → Option Int)
    (bc : Crystal → Option Int) (mR fL : Int) (rands : Nat → Nat → Nat) (fuel : Nat) :
    ∀ (tc : Nat) (trs : List (List Nat)),
      runTrials rc bi bc mR fL rands fuel tc = some (TrialsResult.ok trs) →
      trs.length = tc := by
  intro tc
  induction tc with
  | zero =>
    intro trs h
    cases h; rfl
  | succ n ih =>
    intro trs h
    simp only [runTrials] at h
    rcases hprev : runTrials rc bi bc mR fL rands fuel n with _ | r
    · rw [hprev] at h; cases h
    · rw [hprev] at h
      cases r with
      | err e => cases h
      | ok vs =>
        rcases hrun : approximate_counts rc bi bc mR fL (rands n) fuel with _ | r2
        · rw [hrun] at h; cases h
        · rw [hrun] at h
          cases r2 with
          | err e => cases h
          | ok v =>
            obtain rfl : vs ++ [v] = trs := by cases h; rfl
            rw [List.length_append, ih vs hprev]
            simp

/-- C4: when every trial of a meta_approximate run finishes, producing the
trial vectors trs in order, the returned best total is the maximum of the
trial totals and every returned vector sums to exactly that total. -/
theorem claim4_meta_maximality (rc : List CollectableRecipe)
    (bi : Ingredient → Option Int) (bc : Crystal → Option Int) (mR fL : Int)
    (rands : Nat → Nat → Nat) (fuel : Nat) (tc : Nat) (trs : List (List Nat))
    (best : Nat) (vecs : List (List Nat))
    (_htc : 1 ≤ tc)
    (htrials : runTrials rc bi bc mR fL rands fuel tc = some (TrialsResult.ok trs))
    (hmeta : meta_approximate rc bi bc mR fL rands fuel tc = some (MetaResult.ok best vecs)) :
    trs.length = tc ∧ best = (trs.map List.sum).foldl Nat.max 0 ∧
      ∀ v ∈ vecs, v.sum = best := by
  unfold meta_approximate at hmeta
  rw [htrials] at hmeta
  have h := Option.some.inj hmeta
  injection h with hb hv
  subst hb; subst hv
  obtain ⟨h1, h2⟩ := metaFold_go trs (0, []) (by intro w hw; simp at hw)
  refine ⟨runTrials_length rc bi bc mR fL rands fuel tc trs htrials, ?_, h2⟩
  rw [List.foldl_map]
  exact h1

/-- Witness for C4 at a concrete input: one recipe needing one LUMBER with
budget 2 everywhere, one trial with failure_limit 1; the trial returns the
vector with entries summing to 2, and that is the reported best total. -/
theorem claim4_meta_maximality_witness :
    ([[2]] : List (List Nat)).length = 1 ∧
      (2 : Nat) = ([[2]].map List.sum).foldl Nat.max 0 ∧
      ∀ v ∈ ([[2]] : List (List Nat)), v.sum = 2 :=
  claim4_meta_maximality [mkRecipe ("a") [(Ingredient.LUMBER, 1)] []]
    (fun _ => some 2) (fun _ => some 2) 1000 1 (fun _ _ => 0) 4 1 [[2]] 2 [[2]]
    (le_refl 1) (by decide) (by decide)

/-! Facts about overlap. -/

/-- C9 counterexample: both copies of a recipe require CLOTH and STONE, so
overlap returns them in enum declaration order, CLOTH before STONE; the
canonical total order of Ingredient.__lt__ ranks STONE (3) before CLOTH (4),
so the returned list is not ordered by the canonical total order as the
claim states. -/
theorem claim9_counterexample :
    (overlap stoneClothRecipe stoneClothRecipe).1 = [Ingredient.CLOTH, Ingredient.STONE] ∧
      ¬ List.Pairwise (fun a b => Ingredient.sortKey a < Ingredient.sortKey b)
        (overlap stoneClothRecipe stoneClothRecipe).1 := by
  constructor
  · decide
  · decide

/-- C9 amended: overlap returns exactly the kinds present in both recipes in
each family; the ingredient list is ordered by enum declaration order (which
differs from the canonical sorting_dict order precisely on the STONE/CLOTH
pair), and the crystal list is ordered by the canonical order (declaration
order and canonical order agree for crystals). -/
theorem claim9_overlap_spec (r1 r2 : CollectableRecipe) :
    (∀ i, i ∈ (overlap r1 r2).1 ↔
      ((r1.ingredients i).isSome = true ∧ (r2.ingredients i).isSome = true)) ∧
    List.Pairwise (fun a b => Ingredient.declRank a < Ingredient.declRank b)
      (overlap r1 r2).1 ∧
    (∀ c, c ∈ (overlap r1 r2).2 ↔
      ((r1.crystals c).isSome = true ∧ (r2.crystals c).isSome = true)) ∧
    List.Pairwise (fun a b => Crystal.sortKey a < Crystal.sortKey b)
      (overlap r1 r2).2 := by
  refine ⟨?_, ?_, ?_, ?_⟩
  · intro i
    simp [overlap, List.mem_filter, mem_ingredientDeclList i]
  · exact List.Pairwise.sublist (List.filter_sublist _)
      (show List.Pairwise (fun a b => Ingredient.declRank a < Ingredient.declRank b)
        ingredientDeclList by decide)
  · intro c
    simp [overlap, List.mem_filter, mem_crystalDeclList c]
  · exact List.Pairwise.sublist (List.filter_sublist _)
      (show List.Pairwise (fun a b => Crystal.sortKey a < Crystal.sortKey b)
        crystalDeclList by decide)

/-! Facts about dict construction. -/

theorem dictOf_append_single {α : Type} [DecidableEq α] (ps : List (α × Int))
    (k : α) (v : Int) (x : α) :
    dictOf (ps ++ [(k, v)]) x = if x = k then some v else dictOf ps x := by
  simp [dictOf, List.foldl_append]

theorem dictOf_map_eq {α : Type} [DecidableEq α] (f : α → Int) (l : List α) (x : α) :
    dictOf (l.map (fun a => (a, f a))) x = if x ∈ l then some (f x) else none := by
  induction l using List.reverseRecOn with
  | nil => simp [dictOf]
  | append_singleton l a ih =>
    rw [List.map_append, List.map_cons, List.map_nil, dictOf_append_single]
    by_cases hx : x = a
    · subst hx; simp
    · rw [if_neg hx, ih]
      by_cases hl : x ∈ l
      · rw [if_pos hl, if_pos (by simp [hl])]
      · rw [if_neg hl, if_neg (by simp [hl, hx])]

/-! Facts about the key probe recipe used to show that valid_bill demands a
total budget dict. -/

theorem ingredientTotal_keyProbe (bi : Ingredient → Option Int)
    (bc : Crystal → Option Int) (i : Ingredient) :
    ingredientTotal [keyProbeRecipe bi bc] [1] i = (bi i).getD 0 := by
  simp only [ingredientTotal, keyProbeRecipe, mkRecipe]
  rw [dictOf_map_eq, if_pos (mem_ingredientDeclList i)]
  simp

theorem crystalTotal_keyProbe (bi : Ingredient → Option Int)
    (bc : Crystal → Option Int) (c : Crystal) :
    crystalTotal [keyProbeRecipe bi bc] [1] c = (bc c).getD 0 := by
  simp only [crystalTotal, keyProbeRecipe, mkRecipe]
  rw [dictOf_map_eq, if_pos (mem_crystalDeclList c)]
  simp

theorem valid_bill_keyProbe_keyError (bi : Ingredient → Option Int)
    (bc : Crystal → Option Int)
    (hmiss : (∃ i, bi i = none) ∨ (∃ c, bc c = none)) :
    valid_bill (fun i => ingredientTotal [keyProbeRecipe bi bc] [1] i,
      fun c => crystalTotal [keyProbeRecipe bi bc] [1] c) bi bc = BillCheck.keyError := by
  unfold valid_bill
  by_cases hingmiss : ∃ i, bi i = none
  · rw [checkKinds_keyError_of_missing]
    · intro k _ b hb
      show ingredientTotal [keyProbeRecipe bi bc] [1] k ≤ b
      rw [ingredientTotal_keyProbe, hb]; simp
    · rcases hingmiss with ⟨i0, hi0⟩
      exact ⟨i0, mem_ingredientDeclList i0, hi0⟩
  · push_neg at hingmiss
    rw [checkKinds_true_of_present_le]
    · rcases hmiss with h | ⟨c0, hc0⟩
      · exact absurd h (by push_neg; exact hingmiss)
      · rw [checkKinds_keyError_of_missing]
        · intro k _ b hb
          show crystalTotal [keyProbeRecipe bi bc] [1] k ≤ b
          rw [crystalTotal_keyProbe, hb]; simp
        · exact ⟨c0, mem_crystalDeclList c0, hc0⟩
    · intro k _
      obtain ⟨b, hb⟩ := Option.ne_none_iff_exists'.mp (hingmiss k)
      refine ⟨b, hb, ?_⟩
      show ingredientTotal [keyProbeRecipe bi bc] [1] k ≤ b
      rw [ingredientTotal_keyProbe, hb]; simp

/-- With budget dicts that contain every kind, no iteration of the loop can
raise a KeyError: the summary always has the right length and the valid_bill
scan only looks up present keys. -/
theorem acLoop_total_no_keyError (rc : List CollectableRecipe)
    (biF : Ingredient → Int) (bcF : Crystal → Int) (mR fL : Int) (rand : Nat → Nat) :
    ∀ (fuel : Nat) (counts : List Nat) (streak : Nat) (rounds : Int) (idx : Nat),
      counts.length = rc.length →
      acLoop rc (fun i => some (biF i)) (fun c => some (bcF c)) mR fL rand fuel
        counts streak rounds idx ≠ some (RunResult.err PyErr.keyError) := by
  intro fuel
  induction fuel with
  | zero =>
    intro counts streak rounds idx hlen
    simp [acLoop]
  | succ f ih =>
    intro counts streak rounds idx hlen
    by_cases hcond : rounds < mR ∧ ((streak : Nat) : Int) < fL
    · cases hrc : rc with
      | nil =>
        simp [acLoop, if_pos hcond]
      | cons r rs =>
        subst hrc
        simp only [acLoop, if_pos hcond]
        have hsum : summarize (r :: rs) (counts.set (rand idx % (r :: rs).length)
            (counts.getD (rand idx % (r :: rs).length) 0 + 1)) =
            some (fun i => ingredientTotal (r :: rs) (counts.set (rand idx % (r :: rs).length)
                (counts.getD (rand idx % (r :: rs).length) 0 + 1)) i,
              fun c => crystalTotal (r :: rs) (counts.set (rand idx % (r :: rs).length)
                (counts.getD (rand idx % (r :: rs).length) 0 + 1)) c) := by
          simp [summarize, hlen]
        simp only [hsum]
        rcases hvb : valid_bill
            (fun i => ingredientTotal (r :: rs) (counts.set (rand idx % (r :: rs).length)
                (counts.getD (rand idx % (r :: rs).length) 0 + 1)) i,
              fun c => crystalTotal (r :: rs) (counts.set (rand idx % (r :: rs).length)
                (counts.getD (rand idx % (r :: rs).length) 0 + 1)) c)
            (fun i => some (biF i)) (fun c => some (bcF c)) with _ | b
        · exact absurd hvb (valid_bill_total_ne_keyError _ _ _)
        · cases b with
          | false =>
            exact ih _ (streak + 1) rounds (idx + 1)
              (by rw [List.length_set, List.length_set]; exact hlen)
          | true =>
            exact ih _ 0 rounds (idx + 1) (by rw [List.length_set]; exact hlen)
    · simp [acLoop, if_neg hcond]

/-- C10: the budget dicts must be total over the kind enumerations.  First
conjunct: whenever either budget dict is missing some kind, there is a
non-empty collection on which the very first feasibility check of
approximate_counts raises KeyError.  Second conjunct: with both dicts total,
no run of approximate_counts can ever raise KeyError. -/
theorem claim10_budget_totality :
    (∀ (bi : Ingredient → Option Int) (bc : Crystal → Option Int),
      ((∃ i, bi i = none) ∨ (∃ c, bc c = none)) →
      ∃ rc, rc ≠ [] ∧ approximate_counts rc bi bc 1000 50 (fun _ => 0) 1 =
        some (RunResult.err PyErr.keyError)) ∧
    (∀ (rc : List CollectableRecipe) (biF : Ingredient → Int) (bcF : Crystal → Int)
      (mR fL : Int) (rand : Nat → Nat) (fuel : Nat),
      approximate_counts rc (fun i => some (biF i)) (fun c => some (bcF c))
        mR fL rand fuel ≠ some (RunResult.err PyErr.keyError)) := by
  constructor
  · intro bi bc hmiss
    refine ⟨[keyProbeRecipe bi bc], by simp, ?_⟩
    show acLoop [keyProbeRecipe bi bc] bi bc 1000 50 (fun _ => 0) (0 + 1)
      (List.replicate 1 0) 0 0 0 = some (RunResult.err PyErr.keyError)
    have hsum : summarize [keyProbeRecipe bi bc] [1] =
        some (fun i => ingredientTotal [keyProbeRecipe bi bc] [1] i,
          fun c => crystalTotal [keyProbeRecipe bi bc] [1] c) := by
      simp [summarize]
    simp only [acLoop, if_pos (by norm_num : (0 : Int) < 1000 ∧ ((0 : Nat) : Int) < 50)]
    norm_num [List.replicate, hsum, valid_bill_keyProbe_keyError bi bc hmiss]
  · intro rc biF bcF mR fL rand fuel
    exact acLoop_total_no_keyError rc biF bcF mR fL rand fuel _ 0 0 0 (by simp)

/-- Witness for C10 at a concrete input: an ingredient budget missing only
FOOD makes the probe collection raise KeyError on its first check. -/
theorem claim10_budget_totality_witness :
    ∃ rc, rc ≠ [] ∧ approximate_counts rc foodlessBudget zeroCrystalBudget
      1000 50 (fun _ => 0) 1 = some (RunResult.err PyErr.keyError) :=
  claim10_budget_totality.1 foodlessBudget zeroCrystalBudget
    (Or.inl ⟨Ingredient.FOOD, by decide⟩)

/-! List facts for the zero-budget analysis. -/

theorem getD_replicate_zero (n j : Nat) : (List.replicate n (0 : Nat)).getD j 0 = 0 := by
  induction n generalizing j with
  | zero => simp
  | succ m ih => cases j <;> simp [List.replicate_succ, ih]

theorem getD_set_self (l : List Nat) : ∀ (j : Nat) (v : Nat), j < l.length →
    (l.set j v).getD j 0 = v := by
  induction l with
  | nil => intro j v hj; simp at hj
  | cons a l ih =>
    intro j v hj
    cases j with
    | zero => simp
    | succ m => simpa using ih m v (by simpa using hj)

theorem set_replicate_zero (n : Nat) : ∀ (j : Nat),
    (List.replicate n (0 : Nat)).set j 0 = List.replicate n 0 := by
  induction n with
  | zero => intro j; simp
  | succ m ih =>
    intro j
    cases j with
    | zero => simp [List.replicate_succ]
    | succ k => simp [List.replicate_succ, ih k]

theorem getD_mem {α : Type} (l : List α) : ∀ (j : Nat) (d : α), j < l.length →
    l.getD j d ∈ l := by
  induction l with
  | nil => intro j d hj; simp at hj
  | cons a l ih =>
    intro j d hj
    cases j with
    | zero => simp
    | succ m =>
      simp only [List.getD_cons_succ]
      exact List.mem_cons_of_mem a (ih m d (by simpa using hj))

/-! Totals of the unit vector concentrated at one recipe. -/

theorem ingredientTotal_unit (rs : List CollectableRecipe) :
    ∀ (j : Nat), j < rs.length → ∀ i,
      ingredientTotal rs ((List.replicate rs.length 0).set j 1) i =
        ((rs.getD j defaultRecipe).ingredients i).getD 0 := by
  induction rs with
  | nil => intro j hj; simp at hj
  | cons r rs ih =>
    intro j hj i
    rw [List.length_cons, List.replicate_succ]
    cases j with
    | zero =>
      simp only [List.set_cons_zero, List.getD_cons_zero, ingredientTotal]
      rw [ingredientTotal_replicate_zero]
      cases r.ingredients i <;> simp
    | succ m =>
      simp only [List.set_cons_succ, List.getD_cons_succ, ingredientTotal]
      rw [ih m (by simpa using hj) i]
      cases r.ingredients i <;> simp

theorem crystalTotal_unit (rs : List CollectableRecipe) :
    ∀ (j : Nat), j < rs.length → ∀ c,
      crystalTotal rs ((List.replicate rs.length 0).set j 1) c =
        ((rs.getD j defaultRecipe).crystals c).getD 0 := by
  induction rs with
  | nil => intro j hj; simp at hj
  | cons r rs ih =>
    intro j hj c
    rw [List.length_cons, List.replicate_succ]
    cases j with
    | zero =>
      simp only [List.set_cons_zero, List.getD_cons_zero, crystalTotal]
      rw [crystalTotal_replicate_zero]
      cases r.crystals c <;> simp
    | succ m =>
      simp only [List.set_cons_succ, List.getD_cons_succ, crystalTotal]
      rw [ih m (by simpa using hj) c]
      cases r.crystals c <;> simp

/-- Under all-zero budgets, one loop iteration from the zero vector fails the
feasibility check (because the chosen recipe has some positive requirement),
reverts to the zero vector, and grows the failure streak by one. -/
theorem c6_step (rc : List CollectableRecipe)
    (hpos : ∀ r ∈ rc, (∃ i, 0 < ((r.ingredients i).getD 0)) ∨
      (∃ c, 0 < ((r.crystals c).getD 0)))
    (mR fL : Int) (hmR : 0 < mR) (rand : Nat → Nat)
    (f streak idx : Nat) (hstreak : ((streak : Nat) : Int) < fL)
    (r0 : CollectableRecipe) (rs0 : List CollectableRecipe) (hrc : rc = r0 :: rs0) :
    acLoop rc zeroIngredientBudget zeroCrystalBudget mR fL rand (f + 1)
        (List.replicate rc.length 0) streak 0 idx =
      acLoop rc zeroIngredientBudget zeroCrystalBudget mR fL rand f
        (List.replicate rc.length 0) (streak + 1) 0 (idx + 1) := by
  subst hrc
  have hj : rand idx % (r0 :: rs0).length < (r0 :: rs0).length :=
    Nat.mod_lt _ (by simp)
  have hinc : (List.replicate (r0 :: rs0).length 0).set (rand idx % (r0 :: rs0).length)
      ((List.replicate (r0 :: rs0).length 0).getD (rand idx % (r0 :: rs0).length) 0 + 1) =
      (List.replicate (r0 :: rs0).length 0).set (rand idx % (r0 :: rs0).length) 1 := by
    rw [getD_replicate_zero]
  have hsum : summarize (r0 :: rs0)
      ((List.replicate (r0 :: rs0).length 0).set (rand idx % (r0 :: rs0).length) 1) =
      some (fun i => ingredientTotal (r0 :: rs0)
          ((List.replicate (r0 :: rs0).length 0).set (rand idx % (r0 :: rs0).length) 1) i,
        fun c => crystalTotal (r0 :: rs0)
          ((List.replicate (r0 :: rs0).length 0).set (rand idx % (r0 :: rs0).length) 1) c) := by
    simp [summarize, List.length_set]
  have hvb : valid_bill (fun i => ingredientTotal (r0 :: rs0)
        ((List.replicate (r0 :: rs0).length 0).set (rand idx % (r0 :: rs0).length) 1) i,
      fun c => crystalTotal (r0 :: rs0)
        ((List.replicate (r0 :: rs0).length 0).set (rand idx % (r0 :: rs0).length) 1) c)
      zeroIngredientBudget zeroCrystalBudget = BillCheck.result false := by
    show valid_bill _ (fun i => some ((fun _ => (0 : Int)) i)) (fun c => some ((fun _ => (0 : Int)) c)) =
      BillCheck.result false
    apply valid_bill_total_false_of_violation
    have hmem := getD_mem (r0 :: rs0) (rand idx % (r0 :: rs0).length) defaultRecipe hj
    rcases hpos _ hmem with ⟨i, hi⟩ | ⟨c, hc⟩
    · refine Or.inl ⟨i, ?_⟩
      show (0 : Int) < ingredientTotal (r0 :: rs0)
        ((List.replicate (r0 :: rs0).length 0).set (rand idx % (r0 :: rs0).length) 1) i
      rw [ingredientTotal_unit (r0 :: rs0) _ hj i]; exact_mod_cast hi
    · refine Or.inr ⟨c, ?_⟩
      show (0 : Int) < crystalTotal (r0 :: rs0)
        ((List.replicate (r0 :: rs0).length 0).set (rand idx % (r0 :: rs0).length) 1) c
      rw [crystalTotal_unit (r0 :: rs0) _ hj c]; exact_mod_cast hc
  have hrevert : ((List.replicate (r0 :: rs0).length 0).set (rand idx % (r0 :: rs0).length) 1).set
      (rand idx % (r0 :: rs0).length)
      (((List.replicate (r0 :: rs0).length 0).set (rand idx % (r0 :: rs0).length) 1).getD
        (rand idx % (r0 :: rs0).length) 0 - 1) = List.replicate (r0 :: rs0).length 0 := by
    rw [getD_set_self _ _ _ (by rw [List.length_replicate]; exact hj)]
    rw [List.set_set]
    exact set_replicate_zero _ _
  have hcond : (0 : Int) < mR ∧ ((streak : Nat) : Int) < fL := ⟨hmR, hstreak⟩
  simp only [acLoop, hinc, hsum, hvb, hrevert]
  rw [if_pos hcond]

theorem c6_loop_none (rc : List CollectableRecipe)
    (hpos : ∀ r ∈ rc, (∃ i, 0 < ((r.ingredients i).getD 0)) ∨
      (∃ c, 0 < ((r.crystals c).getD 0)))
    (mR fL : Int) (hmR : 0 < mR) (hfL : 0 < fL) (rand : Nat → Nat)
    (r0 : CollectableRecipe) (rs0 : List CollectableRecipe) (hrc : rc = r0 :: rs0) :
    ∀ (f streak idx : Nat), streak + f ≤ fL.toNat →
      acLoop rc zeroIngredientBudget zeroCrystalBudget mR fL rand f
        (List.replicate rc.length 0) streak 0 idx = none := by
  intro f
  induction f with
  | zero => intro streak idx h; rfl
  | succ g ih =>
    intro streak idx h
    have hstreak : ((streak : Nat) : Int) < fL := by omega
    rw [c6_step rc hpos mR fL hmR rand g streak idx hstreak r0 rs0 hrc]
    exact ih (streak + 1) (idx + 1) (by omega)

theorem c6_loop_done (rc : List CollectableRecipe)
    (hpos : ∀ r ∈ rc, (∃ i, 0 < ((r.ingredients i).getD 0)) ∨
      (∃ c, 0 < ((r.crystals c).getD 0)))
    (mR fL : Int) (hmR : 0 < mR) (hfL : 0 < fL) (rand : Nat → Nat)
    (r0 : CollectableRecipe) (rs0 : List CollectableRecipe) (hrc : rc = r0 :: rs0) :
    ∀ (f streak idx : Nat), streak ≤ fL.toNat → fL.toNat + 1 ≤ streak + f →
      acLoop rc zeroIngredientBudget zeroCrystalBudget mR fL rand f
        (List.replicate rc.length 0) streak 0 idx =
        some (RunResult.ok (List.replicate rc.length 0)) := by
  intro f
  induction f with
  | zero => intro streak idx h1 h2; omega
  | succ g ih =>
    intro streak idx h1 h2
    by_cases hs : streak = fL.toNat
    · have hnot : ¬ ((0 : Int) < mR ∧ ((streak : Nat) : Int) < fL) := by
        intro hcon
        omega
      simp only [acLoop, if_neg hnot]
    · have hstreak : ((streak : Nat) : Int) < fL := by omega
      rw [c6_step rc hpos mR fL hmR rand g streak idx hstreak r0 rs0 hrc]
      exact ih (streak + 1) (idx + 1) (by omega) (by omega)

/-- C6 amended: with all-zero budgets, for every non-empty collection in
which every recipe has a positive requirement for at least one kind, and
positive max_rounds and failure_limit, the allocator is still looping after
failure_limit iterations (each a failed increment) and returns the all-zero
vector on the very next loop-condition check. -/
theorem claim6_zero_budget (rc : List CollectableRecipe) (mR fL : Int) (rand : Nat → Nat)
    (hne : rc ≠ [])
    (hpos : ∀ r ∈ rc, (∃ i, 0 < ((r.ingredients i).getD 0)) ∨
      (∃ c, 0 < ((r.crystals c).getD 0)))
    (hmR : 0 < mR) (hfL : 0 < fL) :
    approximate_counts rc zeroIngredientBudget zeroCrystalBudget mR fL rand fL.toNat = none ∧
    approximate_counts rc zeroIngredientBudget zeroCrystalBudget mR fL rand (fL.toNat + 1) =
      some (RunResult.ok (List.replicate rc.length 0)) := by
  rcases List.exists_cons_of_ne_nil hne with ⟨r0, rs0, hrc⟩
  constructor
  · exact c6_loop_none rc hpos mR fL hmR hfL rand r0 rs0 hrc fL.toNat 0 0 (by omega)
  · exact c6_loop_done rc hpos mR fL hmR hfL rand r0 rs0 hrc (fL.toNat + 1) 0 0
      (by omega) (by omega)

/-- Witness for C6 at a concrete input: one recipe needing one LUMBER,
all-zero budgets, failure_limit 1; after one failed iteration the run is
still looping, and with one more fuel unit it returns the zero vector. -/
theorem claim6_zero_budget_witness :
    approximate_counts [mkRecipe ("a") [(Ingredient.LUMBER, 1)] []]
        zeroIngredientBudget zeroCrystalBudget 1000 1 (fun _ => 0) ((1 : Int).toNat) = none ∧
    approximate_counts [mkRecipe ("a") [(Ingredient.LUMBER, 1)] []]
        zeroIngredientBudget zeroCrystalBudget 1000 1 (fun _ => 0) ((1 : Int).toNat + 1) =
      some (RunResult.ok (List.replicate [mkRecipe ("a") [(Ingredient.LUMBER, 1)] []].length 0)) :=
  claim6_zero_budget [mkRecipe ("a") [(Ingredient.LUMBER, 1)] []] 1000 1 (fun _ => 0)
    (by simp)
    (by
      intro r hr
      rw [List.mem_singleton] at hr
      subst hr
      exact Or.inl ⟨Ingredient.LUMBER, by decide⟩)
    (by norm_num) (by norm_num)

/-! Facts about token parsing failure. -/

theorem mapOption_none_of_mem {α β : Type} (f : α → Option β) (l : List α) (a : α)
    (ha : a ∈ l) (hf : f a = none) : mapOption f l = none := by
  induction l with
  | nil => simp at ha
  | cons b l ih =>
    rcases List.mem_cons.mp ha with rfl | ha
    · simp [mapOption, hf]
    · cases hb : f b with
      | none => simp [mapOption, hb]
      | some x => simp [mapOption, hb, ih ha]

theorem badIngToken_parse_none (t : List Char) (h : badIngToken t = true) :
    parseToken ingredientOfCode t = none := by
  cases t with
  | nil => rfl
  | cons c rest =>
    simp only [badIngToken, Bool.or_eq_true, Option.isNone_iff_eq_none] at h
    rcases h with h | h
    · simp [parseToken, h]
    · cases hc : ingredientOfCode c with
      | none => simp [parseToken, hc]
      | some k => simp [parseToken, hc, h]

theorem badCryToken_parse_none (t : List Char) (h : badCryToken t = true) :
    parseToken crystalOfCode t = none := by
  cases t with
  | nil => rfl
  | cons c rest =>
    simp only [badCryToken, Bool.or_eq_true, Option.isNone_iff_eq_none] at h
    rcases h with h | h
    · simp [parseToken, h]
    · cases hc : crystalOfCode c with
      | none => simp [parseToken, hc]
      | some k => simp [parseToken, hc, h]

theorem fromFields_ing_none (self : CollectableRecipe)
    (nameField ingField cryField : List Char)
    (h : parseField ingredientOfCode ingField = none) :
    fromFields self nameField ingField cryField = self := by
  unfold fromFields
  rw [h]

theorem fromFields_cry_none (self : CollectableRecipe)
    (nameField ingField cryField : List Char)
    (h : parseField crystalOfCode cryField = none) :
    fromFields self nameField ingField cryField = self := by
  unfold fromFields
  cases hif : parseField ingredientOfCode ingField with
  | none => rfl
  | some ps => rw [h]

/-- C8: decoding any malformed signature (wrong number of semicolon fields,
or some token with an unrecognized leading kind code or an invalid numeric
suffix, including empty tokens) into a freshly default-constructed recipe is
total (the exception is caught, the process does not abort) and leaves the
recipe in its default state: empty name and empty requirement dicts. -/
theorem claim8_malformed_default (s : String) (h : malformedSignature s = true) :
    fromString defaultRecipe s = defaultRecipe := by
  unfold malformedSignature at h
  unfold fromString
  rcases hsplit : splitOnChar ';' s.data with _ | ⟨f1, _ | ⟨f2, _ | ⟨f3, _ | ⟨f4, rest⟩⟩⟩⟩
  · rfl
  · rfl
  · rfl
  · rw [hsplit] at h
    have h2 : ((splitOnChar ',' f2).any badIngToken ||
        (splitOnChar ',' f3).any badCryToken) = true := h
    rw [Bool.or_eq_true, List.any_eq_true, List.any_eq_true] at h2
    show fromFields defaultRecipe f1 f2 f3 = defaultRecipe
    rcases h2 with ⟨t, ht, hbad⟩ | ⟨t, ht, hbad⟩
    · exact fromFields_ing_none defaultRecipe f1 f2 f3
        (mapOption_none_of_mem _ _ t ht (badIngToken_parse_none t hbad))
    · exact fromFields_cry_none defaultRecipe f1 f2 f3
        (mapOption_none_of_mem _ _ t ht (badCryToken_parse_none t hbad))
  · rfl

/-- Witness for C8 at a concrete input: a two-field signature is malformed
and decoding it leaves the fresh recipe untouched. -/
theorem claim8_malformed_default_witness :
    malformedSignature ("a;b") = true ∧ fromString defaultRecipe ("a;b") = defaultRecipe :=
  ⟨by decide, claim8_malformed_default ("a;b") (by decide)⟩

/-- C7 counterexample: encoding the recipe decoded from the example
signature does not return that signature.  to_signature emits the crystal
keys sorted by Crystal.__lt__ rank (FIRE 0, ICE 1, WIND 2, ...), so ICE
precedes WIND and the crystal field reads I8,W8, not W8,I8. -/
theorem claim7_counterexample : toSignature rodDecoded ≠ rodSignature := by decide

/-- C7 amended: the signature rod;W2,G1,I1;W8,I8 decodes to name rod,
ingredients LUMBER 2, GEM 1, INGOT 1 and crystals WIND 8, ICE 8, exactly as
the claim states; encoding that recipe, however, returns rod;W2,G1,I1;I8,W8,
with the crystal tokens in canonical order (ICE before WIND). -/
theorem claim7_example :
    rodDecoded.name = "rod" ∧
    (∀ i, rodDecoded.ingredients i = rodExpectedIngredients i) ∧
    (∀ c, rodDecoded.crystals c = rodExpectedCrystals c) ∧
    toSignature rodDecoded = "rod;W2,G1,I1;I8,W8" := by decide

/-! Round-trip of the decimal integer printer and parser. -/

theorem digitVal_digitChar (d : Nat) (h : d < 10) : digitVal (digitChar d) = some d := by
  interval_cases d <;> decide

theorem digitChar_bounds (d : Nat) (h : d < 10) :
    48 ≤ (digitChar d).toNat ∧ (digitChar d).toNat ≤ 57 := by
  interval_cases d <;> decide

theorem digitChar_ne_underscore (d : Nat) (h : d < 10) : digitChar d ≠ '_' := by
  interval_cases d <;> decide

theorem char_ne_underscore_of_digit (c : Char) (h1 : 48 ≤ c.toNat) (h2 : c.toNat ≤ 57) :
    c ≠ '_' := by
  intro hc
  subst hc
  exact absurd h2 (by decide)

theorem digitVal_of_bounds (c : Char) (h1 : 48 ≤ c.toNat) (h2 : c.toNat ≤ 57) :
    digitVal c = some (c.toNat - 48) := by
  unfold digitVal
  rw [if_pos ⟨h1, h2⟩]

theorem parseDigitsRest_append_digit :
    ∀ (cs : List Char), (∀ c ∈ cs, 48 ≤ c.toNat ∧ c.toNat ≤ 57) →
      ∀ (acc m d : Nat), d < 10 → parseDigitsRest acc cs = some m →
        parseDigitsRest acc (cs ++ [digitChar d]) = some (10 * m + d) := by
  intro cs
  induction cs with
  | nil =>
    intro _ acc m d hd hp
    obtain rfl : acc = m := Option.some.inj hp
    show parseDigitsRest acc [digitChar d] = some (10 * acc + d)
    unfold parseDigitsRest
    rw [if_neg (digitChar_ne_underscore d hd), digitVal_digitChar d hd]
    rfl
  | cons c cs ih =>
    intro hdig acc m d hd hp
    have hc := hdig c (List.mem_cons_self c cs)
    have hcs : ∀ x ∈ cs, 48 ≤ x.toNat ∧ x.toNat ≤ 57 :=
      fun x hx => hdig x (List.mem_cons_of_mem c hx)
    have hne := char_ne_underscore_of_digit c hc.1 hc.2
    unfold parseDigitsRest at hp
    rw [if_neg hne, digitVal_of_bounds c hc.1 hc.2] at hp
    show parseDigitsRest acc (c :: (cs ++ [digitChar d])) = some (10 * m + d)
    unfold parseDigitsRest
    rw [if_neg hne, digitVal_of_bounds c hc.1 hc.2]
    exact ih hcs _ m d hd hp

theorem parseDigits_append_digit (cs : List Char)
    (hdig : ∀ c ∈ cs, 48 ≤ c.toNat ∧ c.toNat ≤ 57) (m d : Nat) (hd : d < 10)
    (hp : parseDigits cs = some m) :
    parseDigits (cs ++ [digitChar d]) = some (10 * m + d) := by
  cases cs with
  | nil => cases hp
  | cons c0 cs0 =>
    have hc0 := hdig c0 (List.mem_cons_self c0 cs0)
    have hp2 : (match digitVal c0 with
        | some d0 => parseDigitsRest d0 cs0
        | none => none) = some m := hp
    rw [digitVal_of_bounds c0 hc0.1 hc0.2] at hp2
    have hp3 : parseDigitsRest (c0.toNat - 48) cs0 = some m := hp2
    show (match digitVal c0 with
        | some d0 => parseDigitsRest d0 (cs0 ++ [digitChar d])
        | none => none) = some (10 * m + d)
    rw [digitVal_of_bounds c0 hc0.1 hc0.2]
    exact parseDigitsRest_append_digit cs0
      (fun x hx => hdig x (List.mem_cons_of_mem c0 hx)) _ m d hd hp3

theorem natCharsGo_spec :
    ∀ (f n : Nat), n < f →
      parseDigits (natCharsGo f n) = some n ∧
      (∀ c ∈ natCharsGo f n, 48 ≤ c.toNat ∧ c.toNat ≤ 57) ∧
      natCharsGo f n ≠ [] := by
  intro f
  induction f with
  | zero => intro n hn; omega
  | succ g ih =>
    intro n hn
    by_cases h10 : n < 10
    · simp only [natCharsGo, if_pos h10]
      refine ⟨?_, ?_, by simp⟩
      · show (match digitVal (digitChar n) with
            | some d => parseDigitsRest d []
            | none => none) = some n
        rw [digitVal_digitChar n h10]
        rfl
      · intro c hc
        rw [List.mem_singleton] at hc
        subst hc
        exact digitChar_bounds n h10
    · simp only [natCharsGo, if_neg h10]
      have hrec : n / 10 < g := by omega
      obtain ⟨hp, hdig, hne⟩ := ih (n / 10) hrec
      have hmod : n % 10 < 10 := Nat.mod_lt _ (by omega)
      refine ⟨?_, ?_, by simp⟩
      · rw [parseDigits_append_digit _ hdig _ _ hmod hp]
        congr 1
        omega
      · intro c hc
        rcases List.mem_append.mp hc with hc | hc
        · exact hdig c hc
        · rw [List.mem_singleton] at hc
          subst hc
          exact digitChar_bounds _ hmod

theorem parseDigits_natChars (n : Nat) : parseDigits (natChars n) = some n :=
  (natCharsGo_spec (n + 1) n (by omega)).1

theorem natChars_digits (n : Nat) :
    ∀ c ∈ natChars n, 48 ≤ c.toNat ∧ c.toNat ≤ 57 :=
  (natCharsGo_spec (n + 1) n (by omega)).2.1

theorem natChars_ne_nil (n : Nat) : natChars n ≠ [] :=
  (natCharsGo_spec (n + 1) n (by omega)).2.2

theorem isPySpace_of_digit (c : Char) (h1 : 48 ≤ c.toNat) (h2 : c.toNat ≤ 57) :
    isPySpace c = false := by
  simp only [isPySpace, Bool.or_eq_false_iff, decide_eq_false_iff_not]
  omega

theorem dropWhile_eq_self_of_nonspace (cs : List Char)
    (h : ∀ c ∈ cs, isPySpace c = false) : cs.dropWhile isPySpace = cs := by
  cases cs with
  | nil => rfl
  | cons c cs =>
    rw [List.dropWhile_cons, h c (List.mem_cons_self c cs)]
    simp

theorem stripChars_eq_self_of_nonspace (cs : List Char)
    (h : ∀ c ∈ cs, isPySpace c = false) : stripChars cs = cs := by
  unfold stripChars
  rw [dropWhile_eq_self_of_nonspace cs h,
    dropWhile_eq_self_of_nonspace cs.reverse (by
      intro c hc
      exact h c (List.mem_reverse.mp hc)),
    List.reverse_reverse]

theorem intChars_chars (q : Int) :
    ∀ c ∈ intChars q, c.toNat = 45 ∨ (48 ≤ c.toNat ∧ c.toNat ≤ 57) := by
  intro c hc
  unfold intChars at hc
  by_cases hq : q < 0
  · rw [if_pos hq] at hc
    rcases List.mem_cons.mp hc with rfl | hc
    · left; rfl
    · right; exact natChars_digits _ c hc
  · rw [if_neg hq] at hc
    right; exact natChars_digits _ c hc

theorem pyInt_intChars (q : Int) : pyInt (intChars q) = some q := by
  have hnonspace : ∀ c ∈ intChars q, isPySpace c = false := by
    intro c hc
    rcases intChars_chars q c hc with h45 | ⟨h1, h2⟩
    · simp only [isPySpace, Bool.or_eq_false_iff, decide_eq_false_iff_not]
      omega
    · exact isPySpace_of_digit c h1 h2
  unfold pyInt
  rw [stripChars_eq_self_of_nonspace _ hnonspace]
  unfold intChars
  by_cases hq : q < 0
  · rw [if_pos hq]
    show (if '-' = '-' then (parseDigits (natChars q.natAbs)).map (fun n => -(n : Int))
      else _) = some q
    rw [if_pos rfl, parseDigits_natChars]
    show some (-(q.natAbs : Int)) = some q
    congr 1
    omega
  · rw [if_neg hq]
    rcases hnc : natChars q.toNat with _ | ⟨c0, rest⟩
    · exact absurd hnc (natChars_ne_nil _)
    · have hc0 : 48 ≤ c0.toNat ∧ c0.toNat ≤ 57 := by
        have := natChars_digits q.toNat c0 (by rw [hnc]; exact List.mem_cons_self c0 rest)
        exact this
      have hne1 : c0 ≠ '-' := by
        intro h; subst h; exact absurd hc0.1 (by decide)
      have hne2 : c0 ≠ '+' := by
        intro h; subst h; exact absurd hc0.1 (by decide)
      show (if c0 = '-' then _ else if c0 = '+' then _
        else (parseDigits (c0 :: rest)).map (fun n => (n : Int))) = some q
      rw [if_neg hne1, if_neg hne2, ← hnc, parseDigits_natChars]
      show some ((q.toNat : Int)) = some q
      congr 1
      omega

/-! Splitting and joining around separators. -/

theorem splitOnChar_no_sep (sep : Char) :
    ∀ (cs : List Char), sep ∉ cs → splitOnChar sep cs = [cs] := by
  intro cs
  induction cs with
  | nil => intro _; rfl
  | cons c cs ih =>
    intro h
    have hc : ¬ (c = sep) := fun e => h (e ▸ List.mem_cons_self c cs)
    simp only [splitOnChar, if_neg hc]
    rw [ih (fun hm => h (List.mem_cons_of_mem c hm))]

theorem splitOnChar_append (sep : Char) :
    ∀ (a rest : List Char), sep ∉ a →
      splitOnChar sep (a ++ sep :: rest) = a :: splitOnChar sep rest := by
  intro a
  induction a with
  | nil =>
    intro rest _
    show splitOnChar sep (sep :: rest) = [] :: splitOnChar sep rest
    simp [splitOnChar]
  | cons c a ih =>
    intro rest h
    have hc : ¬ (c = sep) := fun e => h (e ▸ List.mem_cons_self c a)
    simp only [List.cons_append, splitOnChar, if_neg hc, List.append_eq]
    rw [ih rest (fun hm => h (List.mem_cons_of_mem c hm))]

theorem mem_joinWith (sep : Char) :
    ∀ (ts : List (List Char)) (c : Char), c ∈ joinWith sep ts →
      c = sep ∨ ∃ t ∈ ts, c ∈ t := by
  intro ts
  induction ts with
  | nil => intro c hc; simp [joinWith] at hc
  | cons t ts ih =>
    intro c hc
    cases ts with
    | nil => exact Or.inr ⟨t, List.mem_cons_self t [], hc⟩
    | cons t2 ts2 =>
      have hc2 : c ∈ t ++ sep :: joinWith sep (t2 :: ts2) := hc
      rcases List.mem_append.mp hc2 with hc3 | hc3
      · exact Or.inr ⟨t, List.mem_cons_self t _, hc3⟩
      · rcases List.mem_cons.mp hc3 with rfl | hc4
        · exact Or.inl rfl
        · rcases ih c hc4 with h | ⟨t3, ht3, hc5⟩
          · exact Or.inl h
          · exact Or.inr ⟨t3, List.mem_cons_of_mem t ht3, hc5⟩

theorem splitOnChar_joinWith (sep : Char) :
    ∀ (ts : List (List Char)), ts ≠ [] → (∀ t ∈ ts, sep ∉ t) →
      splitOnChar sep (joinWith sep ts) = ts := by
  intro ts
  induction ts with
  | nil => intro h _; exact absurd rfl h
  | cons t ts ih =>
    intro _ hsep
    cases ts with
    | nil =>
      show splitOnChar sep t = [t]
      exact splitOnChar_no_sep sep t (hsep t (List.mem_cons_self t []))
    | cons t2 ts2 =>
      show splitOnChar sep (t ++ sep :: joinWith sep (t2 :: ts2)) = t :: t2 :: ts2
      rw [splitOnChar_append sep t _ (hsep t (List.mem_cons_self t _))]
      rw [ih (by simp) (fun u hu => hsep u (List.mem_cons_of_mem t hu))]

/-! Parsing a failure-free mapped list. -/

theorem mapOption_map {α β γ : Type} (g : α → β) (f : β → Option γ) (h : α → γ) :
    ∀ (l : List α), (∀ a ∈ l, f (g a) = some (h a)) →
      mapOption f (l.map g) = some (l.map h) := by
  intro l
  induction l with
  | nil => intro _; rfl
  | cons a l ih =>
    intro hall
    show (match f (g a) with
      | some b => (mapOption f (l.map g)).map (fun bs => b :: bs)
      | none => none) = some ((a :: l).map h)
    rw [hall a (List.mem_cons_self a l),
      ih (fun x hx => hall x (List.mem_cons_of_mem a hx))]
    rfl

/-! Facts about the letter-number tokens emitted by to_signature. -/

theorem ingredientOfCode_code (i : Ingredient) :
    ingredientOfCode (Ingredient.code i) = some i := by
  cases i <;> rfl

theorem crystalOfCode_code (c : Crystal) :
    crystalOfCode (Crystal.code c) = some c := by
  cases c <;> rfl

theorem ingredient_code_ne (i : Ingredient) :
    Ingredient.code i ≠ ';' ∧ Ingredient.code i ≠ ',' := by
  cases i <;> exact ⟨by decide, by decide⟩

theorem crystal_code_ne (c : Crystal) :
    Crystal.code c ≠ ';' ∧ Crystal.code c ≠ ',' := by
  cases c <;> exact ⟨by decide, by decide⟩

theorem intChars_no_sep (q : Int) : ∀ c ∈ intChars q, c ≠ ';' ∧ c ≠ ',' := by
  intro c hc
  rcases intChars_chars q c hc with h | ⟨h1, h2⟩
  · constructor
    · intro e; subst e; exact absurd h (by decide)
    · intro e; subst e; exact absurd h (by decide)
  · constructor
    · intro e; subst e; exact absurd h2 (by decide)
    · intro e; subst e; exact absurd h1 (by decide)

theorem ingToken_no_sep (m : Ingredient → Option Int) (i : Ingredient) :
    ∀ c ∈ ingToken m i, c ≠ ';' ∧ c ≠ ',' := by
  intro c hc
  rcases List.mem_cons.mp hc with rfl | hc
  · exact ingredient_code_ne i
  · exact intChars_no_sep _ c hc

theorem cryToken_no_sep (m : Crystal → Option Int) (c : Crystal) :
    ∀ x ∈ cryToken m c, x ≠ ';' ∧ x ≠ ',' := by
  intro x hx
  rcases List.mem_cons.mp hx with rfl | hx
  · exact crystal_code_ne c
  · exact intChars_no_sep _ x hx

theorem parseToken_ingToken (m : Ingredient → Option Int) (i : Ingredient) :
    parseToken ingredientOfCode (ingToken m i) = some (i, (m i).getD 0) := by
  unfold ingToken
  simp only [parseToken, ingredientOfCode_code, pyInt_intChars, Option.map_some']

theorem parseToken_cryToken (m : Crystal → Option Int) (c : Crystal) :
    parseToken crystalOfCode (cryToken m c) = some (c, (m c).getD 0) := by
  unfold cryToken
  simp only [parseToken, crystalOfCode_code, pyInt_intChars, Option.map_some']

/-! Facts about the present-key lists. -/

theorem mem_presentIngredients (m : Ingredient → Option Int) (i : Ingredient) :
    i ∈ presentIngredients m ↔ (m i).isSome = true := by
  simp [presentIngredients, List.mem_filter, mem_sortedIngredientList i]

theorem mem_presentCrystals (m : Crystal → Option Int) (c : Crystal) :
    c ∈ presentCrystals m ↔ (m c).isSome = true := by
  simp [presentCrystals, List.mem_filter, mem_sortedCrystalList c]

theorem presentIngredients_dictOf_ne_nil (ings : List (Ingredient × Int))
    (h : ings ≠ []) : presentIngredients (dictOf ings) ≠ [] := by
  rcases List.eq_nil_or_concat ings with rfl | ⟨ps, kv, rfl⟩
  · exact absurd rfl h
  · obtain ⟨k, v⟩ := kv
    have hk : dictOf (ps.concat (k, v)) k = some v := by
      rw [List.concat_eq_append, dictOf_append_single, if_pos rfl]
    exact List.ne_nil_of_mem ((mem_presentIngredients _ k).mpr (by rw [hk]; rfl))

theorem presentCrystals_dictOf_ne_nil (crys : List (Crystal × Int))
    (h : crys ≠ []) : presentCrystals (dictOf crys) ≠ [] := by
  rcases List.eq_nil_or_concat crys with rfl | ⟨ps, kv, rfl⟩
  · exact absurd rfl h
  · obtain ⟨k, v⟩ := kv
    have hk : dictOf (ps.concat (k, v)) k = some v := by
      rw [List.concat_eq_append, dictOf_append_single, if_pos rfl]
    exact List.ne_nil_of_mem ((mem_presentCrystals _ k).mpr (by rw [hk]; rfl))

theorem dictOf_presentIngredients_eq (m : Ingredient → Option Int) (x : Ingredient) :
    dictOf ((presentIngredients m).map (fun i => (i, (m i).getD 0))) x = m x := by
  rw [dictOf_map_eq]
  by_cases hx : (m x).isSome = true
  · rw [if_pos ((mem_presentIngredients m x).mpr hx)]
    cases hmx : m x with
    | some v => rfl
    | none => rw [hmx] at hx; cases hx
  · rw [if_neg (fun hmem => hx ((mem_presentIngredients m x).mp hmem))]
    cases hmx : m x with
    | some v => rw [hmx] at hx; exact absurd rfl hx
    | none => rfl

theorem dictOf_presentCrystals_eq (m : Crystal → Option Int) (x : Crystal) :
    dictOf ((presentCrystals m).map (fun c => (c, (m c).getD 0))) x = m x := by
  rw [dictOf_map_eq]
  by_cases hx : (m x).isSome = true
  · rw [if_pos ((mem_presentCrystals m x).mpr hx)]
    cases hmx : m x with
    | some v => rfl
    | none => rw [hmx] at hx; cases hx
  · rw [if_neg (fun hmem => hx ((mem_presentCrystals m x).mp hmem))]
    cases hmx : m x with
    | some v => rw [hmx] at hx; exact absurd rfl hx
    | none => rfl

/-! Decoding an encoded recipe. -/

theorem fromString_threeFields (self : CollectableRecipe) (sig : String)
    (a b c : List Char) (h : splitOnChar ';' sig.data = [a, b, c]) :
    fromString self sig = fromFields self a b c := by
  unfold fromString
  rw [h]

theorem fromFields_some (self : CollectableRecipe)
    (nameField ingField cryField : List Char)
    (ps : List (Ingredient × Int)) (qs : List (Crystal × Int))
    (h1 : parseField ingredientOfCode ingField = some ps)
    (h2 : parseField crystalOfCode cryField = some qs) :
    fromFields self nameField ingField cryField =
      ⟨String.mk nameField, dictOf ps, dictOf qs⟩ := by
  unfold fromFields
  rw [h1, h2]

theorem toSignature_split (r : CollectableRecipe) (hname : (';') ∉ r.name.data) :
    splitOnChar ';' (toSignature r).data =
      [r.name.data,
       joinWith ',' ((presentIngredients r.ingredients).map (ingToken r.ingredients)),
       joinWith ',' ((presentCrystals r.crystals).map (cryToken r.crystals))] := by
  have hF1 : (';') ∉ joinWith ','
      ((presentIngredients r.ingredients).map (ingToken r.ingredients)) := by
    intro hmem
    rcases mem_joinWith ',' _ _ hmem with h | ⟨t, ht, hc⟩
    · cases h
    · rcases List.mem_map.mp ht with ⟨i, _, rfl⟩
      exact (ingToken_no_sep r.ingredients i _ hc).1 rfl
  have hF2 : (';') ∉ joinWith ','
      ((presentCrystals r.crystals).map (cryToken r.crystals)) := by
    intro hmem
    rcases mem_joinWith ',' _ _ hmem with h | ⟨t, ht, hc⟩
    · cases h
    · rcases List.mem_map.mp ht with ⟨c, _, rfl⟩
      exact (cryToken_no_sep r.crystals c _ hc).1 rfl
  show splitOnChar ';' (r.name.data ++ ';' ::
      (joinWith ',' ((presentIngredients r.ingredients).map (ingToken r.ingredients)) ++ ';' ::
        joinWith ',' ((presentCrystals r.crystals).map (cryToken r.crystals)))) = _
  rw [splitOnChar_append ';' _ _ hname, splitOnChar_append ';' _ _ hF1,
    splitOnChar_no_sep ';' _ hF2]

theorem parseField_ingTokens (m : Ingredient → Option Int)
    (hne : presentIngredients m ≠ []) :
    parseField ingredientOfCode
        (joinWith ',' ((presentIngredients m).map (ingToken m))) =
      some ((presentIngredients m).map (fun i => (i, (m i).getD 0))) := by
  unfold parseField
  rw [splitOnChar_joinWith ',' _ (by
      intro hmap
      exact hne (List.map_eq_nil_iff.mp hmap))
    (by
      intro t ht hc
      rcases List.mem_map.mp ht with ⟨i, _, rfl⟩
      exact (ingToken_no_sep m i _ hc).2 rfl)]
  exact mapOption_map (ingToken m) (parseToken ingredientOfCode) _ _
    (fun i _ => parseToken_ingToken m i)

theorem parseField_cryTokens (m : Crystal → Option Int)
    (hne : presentCrystals m ≠ []) :
    parseField crystalOfCode
        (joinWith ',' ((presentCrystals m).map (cryToken m))) =
      some ((presentCrystals m).map (fun c => (c, (m c).getD 0))) := by
  unfold parseField
  rw [splitOnChar_joinWith ',' _ (by
      intro hmap
      exact hne (List.map_eq_nil_iff.mp hmap))
    (by
      intro t ht hc
      rcases List.mem_map.mp ht with ⟨x, _, rfl⟩
      exact (cryToken_no_sep m x _ hc).2 rfl)]
  exact mapOption_map (cryToken m) (parseToken crystalOfCode) _ _
    (fun c _ => parseToken_cryToken m c)

/-- Decoding the encoding of any recipe whose name is semicolon-free and
whose requirement dicts are both nonempty restores the name and both dicts. -/
theorem fromString_toSignature (r : CollectableRecipe)
    (hname : (';') ∉ r.name.data)
    (hpi : presentIngredients r.ingredients ≠ [])
    (hpc : presentCrystals r.crystals ≠ []) :
    (fromString defaultRecipe (toSignature r)).name = r.name ∧
    (∀ i, (fromString defaultRecipe (toSignature r)).ingredients i = r.ingredients i) ∧
    (∀ c, (fromString defaultRecipe (toSignature r)).crystals c = r.crystals c) := by
  rw [fromString_threeFields defaultRecipe (toSignature r) _ _ _ (toSignature_split r hname),
    fromFields_some defaultRecipe _ _ _ _ _
      (parseField_ingTokens r.ingredients hpi) (parseField_cryTokens r.crystals hpc)]
  refine ⟨rfl, ?_, ?_⟩
  · intro i
    exact dictOf_presentIngredients_eq r.ingredients i
  · intro c
    exact dictOf_presentCrystals_eq r.crystals c

/-- C3 counterexample: the round-trip law fails for a validly constructed
recipe with empty requirement lists.  Its signature is x;; and decoding that
splits the empty ingredient field into one empty token, whose missing
leading code raises the caught IndexError, leaving the fresh recipe in its
default state, so the decoded name is empty rather than x. -/
theorem claim3_counterexample :
    (fromString defaultRecipe (toSignature (mkRecipe ("x") [] []))).name ≠
      (mkRecipe ("x") [] []).name := by
  decide

/-- C3 amended: for every recipe built by the primary constructor from a
name without semicolons and nonempty ingredient and crystal pair lists,
decoding the encoded signature into a fresh recipe restores the name and
both requirement dicts. -/
theorem claim3_roundtrip (name : String) (ings : List (Ingredient × Int))
    (crys : List (Crystal × Int)) (hname : (';') ∉ name.data)
    (hing : ings ≠ []) (hcry : crys ≠ []) :
    (fromString defaultRecipe (toSignature (mkRecipe name ings crys))).name =
      (mkRecipe name ings crys).name ∧
    (∀ i, (fromString defaultRecipe (toSignature (mkRecipe name ings crys))).ingredients i =
      (mkRecipe name ings crys).ingredients i) ∧
    (∀ c, (fromString defaultRecipe (toSignature (mkRecipe name ings crys))).crystals c =
      (mkRecipe name ings crys).crystals c) :=
  fromString_toSignature (mkRecipe name ings crys) hname
    (presentIngredients_dictOf_ne_nil ings hing)
    (presentCrystals_dictOf_ne_nil crys hcry)

/-- Witness for C3 at a concrete input: a one-ingredient, one-crystal recipe
named rod round-trips through its signature. -/
theorem claim3_roundtrip_witness :
    (fromString defaultRecipe (toSignature
        (mkRecipe ("rod") [(Ingredient.LUMBER, 2)] [(Crystal.WIND, 8)]))).name =
      (mkRecipe ("rod") [(Ingredient.LUMBER, 2)] [(Crystal.WIND, 8)]).name ∧
    (∀ i, (fromString defaultRecipe (toSignature
        (mkRecipe ("rod") [(Ingredient.LUMBER, 2)] [(Crystal.WIND, 8)]))).ingredients i =
      (mkRecipe ("rod") [(Ingredient.LUMBER, 2)] [(Crystal.WIND, 8)]).ingredients i) ∧
    (∀ c, (fromString defaultRecipe (toSignature
        (mkRecipe ("rod") [(Ingredient.LUMBER, 2)] [(Crystal.WIND, 8)]))).crystals c =
      (mkRecipe ("rod") [(Ingredient.LUMBER, 2)] [(Crystal.WIND, 8)]).crystals c) :=
  claim3_roundtrip ("rod") [(Ingredient.LUMBER, 2)] [(Crystal.WIND, 8)]
    (by decide) (by decide) (by decide)

end CraftAlloc
